import Mathlib

/-!
Verification of the Un:Curve weekly newsletter engine (`gladwell_engine.py`).

Strings are modelled as `List Char` (Python `str` is a sequence of code points, so
character-list indices coincide with Python string indices).  The regular expressions
appearing in the source are each embedded as a dedicated matcher that follows Python
`re` semantics for the concrete pattern: leftmost match wins, greedy quantifiers try
the longest extent first and backtrack, lazy quantifiers try the shortest extent
first, `.` matches every character except a newline unless DOTALL is set, `^`/`$` are
string anchors unless MULTILINE is set (in which case they also match after/before a
newline), and `re.sub`/`str.replace` scan left to right without rescanning replaced
text.  Character classes (`\s`, `\d`) are modelled over their ASCII meaning, which is
the only range exercised by the program's patterns and templates.

External effects are parameters: the current date, the e-mail template file, the
webhook transport and the `json.loads` outcome are passed in explicitly, so that the
remaining logic is the pure text pipeline of the source.
-/

namespace Uncurve

/-- Python strings as lists of characters. -/
abbrev Str := List Char

/-- Python whitespace class (`\s` in `re`, and the default class of `str.strip`),
restricted to its ASCII members. -/
def pyWs (c : Char) : Bool :=
  c == ' ' || c == '\t' || c == '\n' || c == '\r' || c == '\x0b' || c == '\x0c'

/-- Python `str.strip()`: drop leading and trailing whitespace. -/
def pyStrip (s : Str) : Str :=
  ((s.dropWhile pyWs).reverse.dropWhile pyWs).reverse

/-- Case-insensitive prefix test: `pat` (already lower-case) is a prefix of `s`
up to ASCII case. This models the effect of `re.IGNORECASE` on a literal. -/
def ciPre : Str → Str → Bool
  | [], _ => true
  | _ :: _, [] => false
  | p :: ps, c :: cs => p == c.toLower && ciPre ps cs

/-- Index of the first case-insensitive occurrence of `pat` in the scanned text. -/
def ciIdxGo (pat : Str) : Nat → Str → Option Nat
  | i, [] => if ciPre pat [] then some i else none
  | i, c :: rest => if ciPre pat (c :: rest) then some i else ciIdxGo pat (i + 1) rest

/-- Index of the first case-insensitive occurrence of `pat` in `s`. -/
def ciIdx (pat s : Str) : Option Nat := ciIdxGo pat 0 s

/-- Whether `pat` occurs in `s` up to ASCII case. -/
def ciHas (pat s : Str) : Bool := (ciIdx pat s).isSome

/-- Index of the first (exact) occurrence of `pat` in the scanned text. -/
def litIdxGo (pat : Str) : Nat → Str → Option Nat
  | i, [] => if pat.isPrefixOf [] then some i else none
  | i, c :: rest => if pat.isPrefixOf (c :: rest) then some i else litIdxGo pat (i + 1) rest

/-- Index of the first occurrence of `pat` in `s` (the semantics of
`re.search` on a literal pattern). -/
def litIdx (pat s : Str) : Option Nat := litIdxGo pat 0 s

/-- Whether the literal `pat` occurs in `s`. -/
def hasLit (pat s : Str) : Bool := (litIdx pat s).isSome

/-- Class of the pattern fragment `[:\s]`. -/
def colonWs (c : Char) : Bool := c == ':' || pyWs c

/-- Length of the leading run of characters satisfying `p`. -/
def classRun (p : Char → Bool) : Str → Nat
  | [] => 0
  | c :: rest => if p c then classRun p rest + 1 else 0

/-- Terminator for a lazy capture: a literal that must follow the captured text;
returns the remaining text after the literal. -/
def litTerm (lit : Str) (cs : Str) : Option Str :=
  if lit.isPrefixOf cs then some (cs.drop lit.length) else none

/-- Terminator matching the class `[\n\r]` (one character). -/
def nlTerm : Str → Option Str
  | [] => none
  | c :: rest => if c == '\n' || c == '\r' then some rest else none

/-- Core of a lazy `(.+?)` followed by a terminator: extend the capture one
character at a time (never across a newline, since `.` does not match `'\n'`),
stopping at the first position where the terminator matches. `acc` holds the
reversed capture so far (already nonempty). -/
def capGo (term : Str → Option Str) (acc : Str) : Str → Option (Str × Str)
  | [] =>
    match term [] with
    | some rest => some (acc.reverse, rest)
    | none => none
  | c :: rest =>
    match term (c :: rest) with
    | some r2 => some (acc.reverse, r2)
    | none => if c == '\n' then none else capGo term (c :: acc) rest

/-- Lazy `(.+?)` followed by a terminator: at least one captured character. -/
def capLazy (term : Str → Option Str) : Str → Option (Str × Str)
  | [] => none
  | c :: rest => if c == '\n' then none else capGo term [c] rest

/-- Greedy `[:\s]*`-style class run followed by a lazy capture: try consuming the
longest class run first and backtrack one character at a time, as the regex
engine does. `k` is the number of class characters still allowed. -/
def tryKs (term : Str → Option Str) (cs : Str) : Nat → Option (Str × Str)
  | 0 => capLazy term cs
  | k + 1 =>
    match capLazy term (cs.drop (k + 1)) with
    | some r => some r
    | none => tryKs term cs k

/-- Greedy class run (characters in `p`) then lazy capture then terminator. -/
def greedyClassThenCap (p : Char → Bool) (term : Str → Option Str) (cs : Str) :
    Option (Str × Str) :=
  tryKs term cs (classRun p cs)

/-- The literal `**` (emphasis delimiter). -/
def starStar : Str := ['*', '*']

/-- The literal `---` opening and closing a metadata block. -/
def dashes3 : Str := ['-', '-', '-']

/-- The literal `[^1]:` (first footnote definition marker). -/
def fnLit : Str := ['[', '^', '1', ']', ':']

/-- Lower-cased literal part of the pattern `\*\*SUBJECT LINE[:\s]*(.+?)\*\*`. -/
def subjEmphPat : Str :=
  ['*', '*', 's', 'u', 'b', 'j', 'e', 'c', 't', ' ', 'l', 'i', 'n', 'e']

/-- Lower-cased literal part of the pattern `SUBJECT LINE[:\s]*(.+?)[\n\r]`. -/
def subjPlainPat : Str := ['s', 'u', 'b', 'j', 'e', 'c', 't', ' ', 'l', 'i', 'n', 'e']

/-- Match of `\*\*SUBJECT LINE[:\s]*(.+?)\*\*` (IGNORECASE) anchored at the start
of `cs`; returns the capture and the text after the whole match. -/
def matchSubjEmphAt (cs : Str) : Option (Str × Str) :=
  if ciPre subjEmphPat cs then
    greedyClassThenCap colonWs (litTerm starStar) (cs.drop subjEmphPat.length)
  else none

/-- Match of `SUBJECT LINE[:\s]*(.+?)[\n\r]` (IGNORECASE) anchored at the start
of `cs`; returns the capture and the text after the whole match. -/
def matchSubjPlainAt (cs : Str) : Option (Str × Str) :=
  if ciPre subjPlainPat cs then
    greedyClassThenCap colonWs nlTerm (cs.drop subjPlainPat.length)
  else none

/-- Leftmost-match search for `matchSubjEmphAt` (the semantics of `re.search`). -/
def searchSubjEmph : Str → Option (Str × Str)
  | [] => none
  | c :: rest =>
    match matchSubjEmphAt (c :: rest) with
    | some r => some r
    | none => searchSubjEmph rest

/-- Leftmost-match search for `matchSubjPlainAt`. -/
def searchSubjPlain : Str → Option (Str × Str)
  | [] => none
  | c :: rest =>
    match matchSubjPlainAt (c :: rest) with
    | some r => some r
    | none => searchSubjPlain rest

/-- Remaining text after the first occurrence of the literal `lit`. -/
def findLitAfter (lit : Str) : Str → Option Str
  | [] => if lit.isPrefixOf [] then some [] else none
  | c :: rest =>
    if lit.isPrefixOf (c :: rest) then some ((c :: rest).drop lit.length)
    else findLitAfter lit rest

/-- The sub `re.sub(r'^---[\s\S]*?---\s*', '', content)`: without MULTILINE the
anchor `^` only matches at position 0, so at most the leading metadata block is
removed: `---`, then the shortest stretch of any characters up to the next
`---`, then greedy whitespace. -/
def stripMeta (cs : Str) : Str :=
  if dashes3.isPrefixOf cs then
    match findLitAfter dashes3 (cs.drop 3) with
    | some rest => rest.dropWhile pyWs
    | none => cs
  else cs

/-- Match of `\[\^\d+\]:` anchored at the start of `cs`. -/
def fnMarkAt (cs : Str) : Bool :=
  match cs with
  | '[' :: '^' :: rest =>
    let ds := rest.takeWhile Char.isDigit
    !ds.isEmpty && (([']', ':']).isPrefixOf (rest.drop ds.length))
  | _ => false

/-- Whether `\[\^\d+\]:` matches anywhere in `cs`; this is exactly when
`re.findall(r'\[\^\d+\]:.*?(?=\[\^\d+\]:|$)', cs, re.DOTALL)` is nonempty,
since the lazy tail can always stop at the `$` lookahead. -/
def hasFnMark : Str → Bool
  | [] => false
  | c :: rest => fnMarkAt (c :: rest) || hasFnMark rest

/-- Lower-cased stem of `References?` . -/
def refStemPat : Str := ['r', 'e', 'f', 'e', 'r', 'e', 'n', 'c', 'e']

/-- After the case-insensitive stem `Reference`, consume an optional `s`
(IGNORECASE); backtracking is irrelevant because the continuation starts with
`:`, which can never equal the consumed `s`. -/
def refAfterStem (cs : Str) : Str :=
  match cs with
  | c :: rest => if c.toLower == 's' then rest else cs
  | [] => cs

/-- Match of the alternative `\*\*References?:\*\*` (IGNORECASE) at the start of `cs`. -/
def refBoldAt (cs : Str) : Bool :=
  match cs with
  | '*' :: '*' :: rest =>
    if ciPre refStemPat rest then
      ([':', '*', '*']).isPrefixOf (refAfterStem (rest.drop refStemPat.length))
    else false
  | _ => false

/-- Match of the alternative `References?:` (IGNORECASE) at the start of `cs`;
under MULTILINE its `^` anchor additionally requires a line start, which the
scanner tracks separately. -/
def refPlainAt (cs : Str) : Bool :=
  if ciPre refStemPat cs then
    match refAfterStem (cs.drop refStemPat.length) with
    | ':' :: _ => true
    | _ => false
  else false

/-- Leftmost match index of `\*\*References?:\*\*|^References?:`
(MULTILINE, IGNORECASE): scan every position, keeping track of whether it is a
line start (`^` under MULTILINE); the bold alternative may match anywhere, the
plain alternative only at a line start. -/
def refScan (atLS : Bool) (i : Nat) : Str → Option Nat
  | [] => none
  | c :: rest =>
    if refBoldAt (c :: rest) || (atLS && refPlainAt (c :: rest)) then some i
    else refScan (c == '\n') (i + 1) rest

/-- Result of `parse_newsletter`. -/
structure ParsedDoc where
  subject : Str
  content : Str
  footnotes : Str
  references : Str
deriving DecidableEq, Repr

/-- Fallback subject used when neither subject pattern matches. -/
def fallbackSubject : Str := ("The Gladwell Perspective").toList

/-- Embedding of `parse_newsletter` (source lines 352-387): subject via the two
`re.search` calls on the original document, then the metadata strip, then the
`[^1]:` search and the references search on the stripped document, then the
references split, then the gated footnote split inside the pre-references part. -/
def parse_newsletter (doc : Str) : ParsedDoc :=
  let subject :=
    match searchSubjEmph doc with
    | some (cap, _) => pyStrip cap
    | none =>
      match searchSubjPlain doc with
      | some (cap, _) => pyStrip cap
      | none => fallbackSubject
  let content := stripMeta doc
  let fnMatch := hasLit fnLit content
  let refIdx := refScan true 0 content
  let mainRefs : Str × Str :=
    match refIdx with
    | some i => (content.take i, content.drop i)
    | none => (content, [])
  let mainFns : Str × Str :=
    if fnMatch then
      if hasFnMark mainRefs.1 then
        match litIdx fnLit mainRefs.1 with
        | some j => (mainRefs.1.take j, mainRefs.1.drop j)
        | none => (mainRefs.1, [])
      else (mainRefs.1, [])
    else (mainRefs.1, [])
  ⟨subject, pyStrip mainFns.1, pyStrip mainFns.2, pyStrip mainRefs.2⟩

/-! ### markdown_to_html (source lines 390-419)

Each `re.sub` is one left-to-right pass: the matcher receives the at-line-start
flag (for `^` under MULTILINE) and the remaining text; on a match it yields the
replacement and the text after the match and the scan resumes there, so
replacements are never rescanned within the same pass.  The fuel argument is
the initial text length, which suffices because every pattern consumes at
least one character. -/

/-- One `re.sub` pass (see section comment). -/
def passGo (m : Bool → Str → Option (Str × Str)) : Nat → Bool → Str → Str
  | 0, _, cs => cs
  | _ + 1, _, [] => []
  | fuel + 1, atLS, c :: cs =>
    match m atLS (c :: cs) with
    | some (rep, rest) =>
      let consumed := (c :: cs).take ((c :: cs).length - rest.length)
      rep ++ passGo m fuel (consumed.getLast? == some '\n') rest
    | none => c :: passGo m fuel (c == '\n') cs

/-- Run one `re.sub` pass over a whole text (position 0 is a line start). -/
def passAll (m : Bool → Str → Option (Str × Str)) (cs : Str) : Str :=
  passGo m cs.length true cs

/-- Rule (a): `re.sub(r'\*\*SUBJECT LINE[:\s]*.+?\*\*\s*', '', text, IGNORECASE)`. -/
def mdSubjEmphRule (_ : Bool) (cs : Str) : Option (Str × Str) :=
  match matchSubjEmphAt cs with
  | some (_, rest) => some ([], rest.dropWhile pyWs)
  | none => none

/-- Rule (a'): `re.sub(r'SUBJECT LINE[:\s]*.+?[\n\r]', '', text, IGNORECASE)`. -/
def mdSubjPlainRule (_ : Bool) (cs : Str) : Option (Str × Str) :=
  match matchSubjPlainAt cs with
  | some (_, rest) => some ([], rest)
  | none => none

/-- The anchor `$` under MULTILINE: end of string or just before a newline. -/
def dollarM (cs : Str) : Bool :=
  match cs with
  | [] => true
  | c :: _ => c == '\n'

/-- The fragment `\s*(.+?)$` (MULTILINE) with greedy backtracking over the
whitespace run: because `.` cannot match a newline, the lazy capture is forced
to extend to the end of its line. `k` is the number of whitespace characters
still allowed. -/
def headTryK (cs : Str) : Nat → Option (Str × Str)
  | 0 =>
    let cap := cs.takeWhile (fun c => !(c == '\n'))
    if cap.isEmpty then none else some (cap, cs.drop cap.length)
  | k + 1 =>
    let cs' := cs.drop (k + 1)
    let cap := cs'.takeWhile (fun c => !(c == '\n'))
    if cap.isEmpty then headTryK cs k else some (cap, cs'.drop cap.length)

/-- Greedy `#{1,6}` with backtracking: try `h` leading hashes, then fewer. -/
def mdHeadGo (cs : Str) : Nat → Option (Str × Str)
  | 0 => none
  | h + 1 =>
    match headTryK (cs.drop (h + 1)) (classRun pyWs (cs.drop (h + 1))) with
    | some r => some r
    | none => mdHeadGo cs h

/-- Rule (b): `re.sub(r'^#{1,6}\s*(.+?)$', r'\1', text, MULTILINE)`. -/
def mdHeadingRule (atLS : Bool) (cs : Str) : Option (Str × Str) :=
  if atLS then
    mdHeadGo cs (min ((cs.takeWhile (fun c => c == '#')).length) 6)
  else none

/-- Rule (c): `re.sub(r'^\s*[-•]\s*', '', text, MULTILINE)`; only the full
whitespace run can precede the marker, since no whitespace character is a
marker. -/
def mdBulletRule (atLS : Bool) (cs : Str) : Option (Str × Str) :=
  if atLS then
    match cs.dropWhile pyWs with
    | c :: rest =>
      if c == '-' || c == '•' then some ([], rest.dropWhile pyWs) else none
    | [] => none
  else none

/-- Rule (c'): `re.sub(r'^\s*\d+\.\s*', '', text, MULTILINE)`. -/
def mdNumberRule (atLS : Bool) (cs : Str) : Option (Str × Str) :=
  if atLS then
    let cs' := cs.dropWhile pyWs
    let ds := cs'.takeWhile Char.isDigit
    if ds.isEmpty then none
    else
      match cs'.drop ds.length with
      | '.' :: rest => some ([], rest.dropWhile pyWs)
      | _ => none
  else none

/-- The fragment `\s*$` (MULTILINE): greedily consume whitespace, backtracking
to the longest run after which `$` holds; returns the remaining text (the `$`
itself is zero-width). -/
def wsDollarGo (cs : Str) : Nat → Option Str
  | 0 => if dollarM cs then some cs else none
  | k + 1 => if dollarM (cs.drop (k + 1)) then some (cs.drop (k + 1)) else wsDollarGo cs k

/-- Greedy `\s*` then `$` under MULTILINE. -/
def wsDollar (cs : Str) : Option Str := wsDollarGo cs (classRun pyWs cs)

/-- The section-break fragment substituted for break lines. -/
def sectionBreakHtml : Str :=
  ("<div style=\"text-align: center; margin: 40px 0; color: #999; letter-spacing: 8px;\">• • •</div>").toList

/-- Rule (d1): `re.sub(r'^\s*\*\s*$', section_break_html, text, MULTILINE)`. -/
def mdStarBreakRule (atLS : Bool) (cs : Str) : Option (Str × Str) :=
  if atLS then
    match cs.dropWhile pyWs with
    | '*' :: rest =>
      match wsDollar rest with
      | some r => some (sectionBreakHtml, r)
      | none => none
    | _ => none
  else none

/-- Rule (d2): `re.sub(r'^\s*---+\s*$', section_break_html, text, MULTILINE)`;
shorter dash runs cannot match, because the following character would be a
dash, where `$` cannot hold. -/
def mdDashBreakRule (atLS : Bool) (cs : Str) : Option (Str × Str) :=
  if atLS then
    let cs' := cs.dropWhile pyWs
    let ds := cs'.takeWhile (fun c => c == '-')
    if ds.length < 3 then none
    else
      match wsDollar (cs'.drop ds.length) with
      | some r => some (sectionBreakHtml, r)
      | none => none
  else none

/-- Rule (d3): `re.sub(r'^\s*\*\*\*+\s*$', section_break_html, text, MULTILINE)`. -/
def mdStarsBreakRule (atLS : Bool) (cs : Str) : Option (Str × Str) :=
  if atLS then
    let cs' := cs.dropWhile pyWs
    let ds := cs'.takeWhile (fun c => c == '*')
    if ds.length < 3 then none
    else
      match wsDollar (cs'.drop ds.length) with
      | some r => some (sectionBreakHtml, r)
      | none => none
  else none

/-- Rule (e1): `re.sub(r'\*\*(.+?)\*\*', r'<strong>\1</strong>', text)`. -/
def mdBoldRule (_ : Bool) (cs : Str) : Option (Str × Str) :=
  match cs with
  | '*' :: '*' :: rest =>
    match capLazy (litTerm starStar) rest with
    | some (cap, rest2) =>
      some ((("<strong>").toList) ++ cap ++ (("</strong>").toList), rest2)
    | none => none
  | _ => none

/-- Rule (e2): `re.sub(r'\*(.+?)\*', r'<em>\1</em>', text)`. -/
def mdItalicRule (_ : Bool) (cs : Str) : Option (Str × Str) :=
  match cs with
  | '*' :: rest =>
    match capLazy (litTerm ([('*')])) rest with
    | some (cap, rest2) => some ((("<em>").toList) ++ cap ++ (("</em>").toList), rest2)
    | none => none
  | _ => none

/-- Rule (f): `re.sub(r'\[\^(\d+)\](?!:)', r'<sup>\1</sup>', text)`. -/
def mdSupRule (_ : Bool) (cs : Str) : Option (Str × Str) :=
  match cs with
  | '[' :: '^' :: rest =>
    let ds := rest.takeWhile Char.isDigit
    if ds.isEmpty then none
    else
      match rest.drop ds.length with
      | ']' :: rest2 =>
        match rest2 with
        | ':' :: _ => none
        | _ => some ((("<sup>").toList) ++ ds ++ (("</sup>").toList), rest2)
      | _ => none
  | _ => none

/-- Python `str.split(sep)` for a nonempty separator: split on every
non-overlapping occurrence, scanning left to right, keeping empty pieces. -/
def splitLitGo (sep : Str) : Nat → Str → Str → List Str
  | 0, acc, cs => [acc.reverse ++ cs]
  | _ + 1, acc, [] => [acc.reverse]
  | fuel + 1, acc, c :: cs =>
    if sep.isPrefixOf (c :: cs) then
      acc.reverse :: splitLitGo sep fuel [] ((c :: cs).drop sep.length)
    else splitLitGo sep fuel (c :: acc) cs

/-- Python `text.split('\n\n')`. -/
def splitBlank (cs : Str) : List Str := splitLitGo (("\n\n").toList) cs.length [] cs

/-- Rule (g): strip each paragraph, drop empty ones, keep pre-built section
breaks (recognised by their `<div` markup) verbatim, wrap the rest in `<p>`
elements, and concatenate without separators. -/
def renderParas : List Str → Str
  | [] => []
  | p :: ps =>
    let q := pyStrip p
    (if q.isEmpty then []
     else if (("<div").toList).isPrefixOf q then q
     else (("<p>").toList) ++ q ++ (("</p>").toList)) ++ renderParas ps

/-- Embedding of `markdown_to_html` (source lines 390-419): the ordered
sequence of rewrite passes followed by paragraph wrapping. -/
def markdown_to_html (text : Str) : Str :=
  let t1 := passAll mdSubjEmphRule text
  let t2 := passAll mdSubjPlainRule t1
  let t3 := passAll mdHeadingRule t2
  let t4 := passAll mdBulletRule t3
  let t5 := passAll mdNumberRule t4
  let t6 := passAll mdStarBreakRule t5
  let t7 := passAll mdDashBreakRule t6
  let t8 := passAll mdStarsBreakRule t7
  let t9 := passAll mdBoldRule t8
  let t10 := passAll mdItalicRule t9
  let t11 := passAll mdSupRule t10
  renderParas (splitBlank t11)

/-! ### build_html_email (source lines 422-457) -/

/-- Python `str.replace(pat, rep)` for a nonempty `pat`: replace every
non-overlapping occurrence, scanning left to right; replaced text is not
rescanned. -/
def repAllGo (pat rep : Str) : Nat → Str → Str
  | 0, cs => cs
  | _ + 1, [] => []
  | fuel + 1, c :: cs =>
    if pat.isPrefixOf (c :: cs) then
      rep ++ repAllGo pat rep fuel ((c :: cs).drop pat.length)
    else c :: repAllGo pat rep fuel cs

/-- Python `str.replace(pat, rep)` dispatch: the program only replaces
nonempty literals, for which the fuel `s.length` always suffices (every match
consumes at least one character). -/
def repAll (pat rep s : Str) : Str :=
  match pat with
  | [] => s
  | _ :: _ => repAllGo pat rep s.length s

/-- The anchor `$` without MULTILINE: end of string, or just before a newline
that ends the string. -/
def dollarS (cs : Str) : Bool := cs.isEmpty || cs == [('\n')]

/-- Lookahead `(?=\[\^\d+\]:|$)` of the footnote findall (no MULTILINE). -/
def fnLook (cs : Str) : Bool := fnMarkAt cs || dollarS cs

/-- Lazy `(.+?)` under DOTALL (any character, at least one) up to a zero-width
lookahead; returns capture and the remaining text at the lookahead position. -/
def capAllGo (look : Str → Bool) (acc : Str) : Str → Option (Str × Str)
  | [] => if look [] then some (acc.reverse, []) else none
  | c :: rest =>
    if look (c :: rest) then some (acc.reverse, c :: rest)
    else capAllGo look (c :: acc) rest

/-- Entry point of the DOTALL lazy capture (at least one character). -/
def capLazyAll (look : Str → Bool) : Str → Option (Str × Str)
  | [] => none
  | c :: rest => capAllGo look [c] rest

/-- The fragment `\s*(.+?)(?=...)` with greedy backtracking over `\s*`. -/
def fnCapK (look : Str → Bool) (cs : Str) : Nat → Option (Str × Str)
  | 0 => capLazyAll look cs
  | k + 1 =>
    match capLazyAll look (cs.drop (k + 1)) with
    | some r => some r
    | none => fnCapK look cs k

/-- One match of `\[\^(\d+)\]:\s*(.+?)(?=\[\^\d+\]:|$)` (DOTALL) anchored at
the start of `cs`: returns the two captures and the text after the match. -/
def fnDefAt (cs : Str) : Option ((Str × Str) × Str) :=
  match cs with
  | '[' :: '^' :: rest =>
    let ds := rest.takeWhile Char.isDigit
    if ds.isEmpty then none
    else
      match rest.drop ds.length with
      | ']' :: ':' :: rest2 =>
        match fnCapK fnLook rest2 (classRun pyWs rest2) with
        | some (cap, rest3) => some ((ds, cap), rest3)
        | none => none
      | _ => none
  | _ => none

/-- The `re.findall` over the footnote-definition pattern: scan left to right,
resuming after each match. -/
def fnFindAll : Nat → Str → List (Str × Str)
  | 0, _ => []
  | _ + 1, [] => []
  | fuel + 1, c :: cs =>
    match fnDefAt (c :: cs) with
    | some (g, rest) => g :: fnFindAll fuel rest
    | none => fnFindAll fuel cs

/-- Footnote-region rendering of `build_html_email` (source lines 429-433). -/
def footnotesHtmlOf (fns : Str) : Str :=
  if fns.isEmpty then []
  else
    (fnFindAll fns.length fns).foldl
      (fun acc g =>
        acc ++ (("<p class=\"footnote\"><span class=\"footnote-marker\">[").toList) ++
          g.1 ++ (("]</span> ").toList) ++ pyStrip g.2 ++ (("</p>").toList))
      []

/-- Python `str.split('\n')` (single-character separator, keeps empty pieces). -/
def splitNl : Str → List Str
  | [] => [[]]
  | c :: cs =>
    if c == '\n' then [] :: splitNl cs
    else
      match splitNl cs with
      | h :: t => (c :: h) :: t
      | [] => [[c]]

/-- References-region rendering of `build_html_email` (source lines 435-439):
strip the heading labels, split into stripped nonempty lines that are not a
lone dash, strip leading `-` and space characters, and wrap in a list. -/
def referencesHtmlOf (refs : Str) : Str :=
  if refs.isEmpty then []
  else
    let r1 := repAll (("**References:**").toList) [] refs
    let r2 := repAll (("References:").toList) [] r1
    let r3 := pyStrip r2
    let ls := ((splitNl r3).map pyStrip).filter (fun l => !l.isEmpty && !(l == [('-')]))
    (("<ul>").toList) ++
      (ls.foldl
        (fun acc l =>
          acc ++ (("<li>").toList) ++ (l.dropWhile (fun c => c == '-' || c == ' ')) ++
            (("</li>").toList))
        []) ++ (("</ul>").toList)

/-- Template placeholder `SUBJECT`. -/
def tokSUBJECT : Str := ("\x7b\x7bSUBJECT\x7d\x7d").toList

/-- Template placeholder `DATE`. -/
def tokDATE : Str := ("\x7b\x7bDATE\x7d\x7d").toList

/-- Template placeholder `CONTENT`. -/
def tokCONTENT : Str := ("\x7b\x7bCONTENT\x7d\x7d").toList

/-- Template placeholder `FOOTNOTES`. -/
def tokFOOTNOTES : Str := ("\x7b\x7bFOOTNOTES\x7d\x7d").toList

/-- Template placeholder `REFERENCES`. -/
def tokREFERENCES : Str := ("\x7b\x7bREFERENCES\x7d\x7d").toList

/-- Template placeholder `PERSONAL_NOTE`. -/
def tokPERSONAL : Str := ("\x7b\x7bPERSONAL_NOTE\x7d\x7d").toList

/-- Fallback substituted for an empty footnotes region. -/
def noNotesHtml : Str := ("<p>No notes for this issue.</p>").toList

/-- Fallback substituted for an empty references region. -/
def noRefsHtml : Str := ("<p>No references.</p>").toList

/-- The fixed personal-note block of `build_html_email` (source lines 442-447). -/
def personalNoteHtml : Str :=
  ("\n        <p>I hope this week\x27s edition of <strong>Un:Curve</strong> gives you something to chew on. Take some time to reflect on how often the \"obvious\" answer is actually the wrong one.</p>\n        <p>What\x27s one thing you\x27re rethinking after reading this? I\x27d love to hear from you on X <strong>@anthonycclemons</strong>.</p>\n        <p>Have a wonderful week ahead,</p>\n        <p>Anthony</p>\n        ").toList

/-- Final assembly of `build_html_email` (source lines 449-455): the six
sequential `str.replace` calls, in source order, with the empty-region
fallbacks. -/
def assemble (template today subject contentH footH refH : Str) : Str :=
  let h1 := repAll tokSUBJECT subject template
  let h2 := repAll tokDATE today h1
  let h3 := repAll tokCONTENT contentH h2
  let h4 := repAll tokFOOTNOTES (if footH.isEmpty then noNotesHtml else footH) h3
  let h5 := repAll tokREFERENCES (if refH.isEmpty then noRefsHtml else refH) h4
  repAll tokPERSONAL personalNoteHtml h5

/-- Embedding of `build_html_email` (source lines 422-457); the template file
and the formatted current date are explicit parameters. -/
def build_html_email (template today newsletter : Str) : Str × Str :=
  let parsed := parse_newsletter newsletter
  let contentH := markdown_to_html parsed.content
  let footH := footnotesHtmlOf parsed.footnotes
  let refH := referencesHtmlOf parsed.references
  (parsed.subject, assemble template today parsed.subject contentH footH refH)

/-! ### History store (source lines 54-126) -/

/-- One detailed history record, as written by `save_headline_to_history`. -/
structure HistRec where
  url : Str
  title : Str
  topic : Str
  date : Str
deriving DecidableEq, Repr

/-- The persisted history file: the flat `used_urls` list and the detailed
`headlines` list. -/
structure HistFile where
  used_urls : List Str
  headlines : List HistRec
deriving DecidableEq, Repr

/-- Python slice `l[-n:]`. -/
def lastN {α : Type*} (n : Nat) (l : List α) : List α := l.drop (l.length - n)

/-- The `headlines` list read from the store; `none` models a missing or
unreadable file, which the bare `except` treats as an empty history. -/
def histOf : Option HistFile → List HistRec
  | some d => d.headlines
  | none => []

/-- Embedding of `save_headline_to_history` (source lines 67-95): read the
previous `headlines` list, append a record carrying the current date, cap to
the last 100 records, and rewrite the derived URL list from the capped
records. -/
def save_headline_to_history (prev : Option HistFile) (url title topic today : Str) :
    HistFile :=
  let full := histOf prev ++ [⟨url, title, topic, today⟩]
  let capped := lastN 100 full
  ⟨capped.map HistRec.url, capped⟩

/-- A pending call to `save_headline_to_history`: url, title, topic and the
date at call time. -/
abbrev SaveInput := Str × Str × Str × Str

/-- The record a save input appends. -/
def recOf (i : SaveInput) : HistRec := ⟨i.1, i.2.1, i.2.2.1, i.2.2.2⟩

/-- Run a sequence of `save_headline_to_history` calls, each reading the file
state the previous call wrote. -/
def runSaves (inputs : List SaveInput) (st : Option HistFile) : Option HistFile :=
  inputs.foldl
    (fun acc i => some (save_headline_to_history acc i.1 i.2.1 i.2.2.1 i.2.2.2)) st

/-! ### Headline source adapter (source lines 98-186) -/

/-- A raw search result: a Python dict whose fields may be absent (`r.get(k)`
is `None` then). -/
structure SearchHit where
  title : Option Str
  body : Option Str
  url : Option Str
  source : Option Str
deriving DecidableEq, Repr

/-- A candidate constructed by `scout_headlines`, with `r.get(k, "")` defaults. -/
structure Candidate where
  title : Str
  body : Str
  url : Str
  source : Str
deriving DecidableEq, Repr

/-- The dict constructed for a retained search result (source lines 172-177). -/
def mkCandidate (r : SearchHit) : Candidate :=
  ⟨r.title.getD [], r.body.getD [], r.url.getD [], r.source.getD []⟩

/-- The de-duplication loop of `scout_headlines` (source lines 167-177):
`seen` is the set of title keys already kept; a result whose `r.get("title")`
is in it is skipped, otherwise its title key is added and the candidate kept. -/
def dedupGo (seen : List (Option Str)) : List SearchHit → List Candidate
  | [] => []
  | r :: rs =>
    if r.title ∈ seen then dedupGo seen rs
    else mkCandidate r :: dedupGo (r.title :: seen) rs

/-- De-duplication by exact title key, first occurrence winning. -/
def dedup_by_title (rs : List SearchHit) : List Candidate := dedupGo [] rs

/-- Embedding of `filter_used_headlines` (source lines 98-111), with the
loaded used-URL list as a parameter. -/
def filter_used_headlines (used : List Str) (hs : List Candidate) : List Candidate :=
  hs.filter (fun h => decide (h.url ∉ used))

/-- The pure tail of `scout_headlines` (source lines 167-186): de-duplicate
the accumulated results, filter out used URLs, truncate to the pool size. -/
def scout_postprocess (rs : List SearchHit) (used : List Str) (numResults : Nat) :
    List Candidate :=
  (filter_used_headlines used (dedup_by_title rs)).take numResults

/-- Specification-style formulation of keep-first de-duplication: keep the
head, then recurse on the tail with every later hit of the same title key
removed. -/
def keepFirstTitles : List SearchHit → List SearchHit
  | [] => []
  | r :: rs => r :: keepFirstTitles (rs.filter (fun x => decide (x.title ≠ r.title)))
  termination_by rs => rs.length
  decreasing_by
    simp
    exact Nat.lt_succ_of_le (List.length_filter_le _ _)

/-! ### Selection step and pipeline order (source lines 189-250 and 552-561) -/

/-- A Python value stored in the selection dict (only strings and integers
occur in the fields the pipeline reads). -/
inductive PyVal where
  | str (s : Str)
  | int (n : Int)
deriving DecidableEq, Repr

/-- The parsed selection object: a Python dict. -/
abbrev Selection := List (Str × PyVal)

/-- Python `d.get(k, dflt)`. -/
def dictGet (d : Selection) (k : Str) (dflt : PyVal) : PyVal :=
  match d with
  | [] => dflt
  | (k', v) :: rest => if k' = k then v else dictGet rest k dflt

/-- The parse tail of `braider_select` (source lines 243-250): `json.loads`
is modelled by the `parsed` parameter (`some d` is a successfully parsed dict,
`none` is the `json.JSONDecodeError` path); on failure the step returns the
degraded dict carrying only the raw response text. -/
def braider_select_result (raw : Str) (parsed : Option Selection) : Selection :=
  match parsed with
  | some d => d
  | none => [((("raw_response").toList), PyVal.str raw)]

/-- The observable pipeline events between selection and generation. -/
inductive PipeEvent where
  | recorded (url title topic : PyVal)
  | generated (title url pattern explanation tnum tname : PyVal)
deriving DecidableEq, Repr

/-- The selection fields `writer_generate` reads, with their `.get` defaults
(source lines 277-280 and 304). -/
def writer_fields (selection : Selection) :
    PyVal × PyVal × PyVal × PyVal × PyVal × PyVal :=
  ( dictGet selection (("headline_title").toList) (PyVal.str (("Unknown").toList)),
    dictGet selection (("headline_url").toList) (PyVal.str (("Unknown").toList)),
    dictGet selection (("davis_pattern").toList) (PyVal.str (("Unknown").toList)),
    dictGet selection (("davis_explanation").toList) (PyVal.str []),
    dictGet selection (("template_number").toList) (PyVal.int 5),
    dictGet selection (("template_name").toList) (PyVal.str (("Deep Dive").toList)) )

/-- Phases 2-3 of `main` (source lines 552-561), as the ordered list of their
observable events: the selection result is recorded to history (with empty
string defaults) strictly before generation reads its fields. -/
def main_select_and_generate (raw : Str) (parsed : Option Selection) : List PipeEvent :=
  let selection := braider_select_result raw parsed
  let w := writer_fields selection
  [ PipeEvent.recorded (dictGet selection (("headline_url").toList) (PyVal.str []))
      (dictGet selection (("headline_title").toList) (PyVal.str []))
      (dictGet selection (("topic_area").toList) (PyVal.str [])),
    PipeEvent.generated w.1 w.2.1 w.2.2.1 w.2.2.2.1 w.2.2.2.2.1 w.2.2.2.2.2 ]

/-! ### Publisher (source lines 460-519) -/

/-- Outcome of one `requests.post` call: an HTTP status, a timeout, or another
request exception. -/
inductive PostOutcome where
  | status (code : Nat)
  | timeoutErr
  | reqErr
deriving DecidableEq, Repr

/-- Python truthiness of an environment value: unset (`None`) and the empty
string are falsy. -/
def pyTruthy : Option Str → Bool
  | none => false
  | some s => !s.isEmpty

/-- Python `a or b`. -/
def pyOrOpt (a b : Option Str) : Option Str := if pyTruthy a then a else b

/-- Whether `response.raise_for_status()` does not raise (4xx/5xx raise). -/
def raiseOkStatus (c : Nat) : Bool := decide (c < 400 ∨ 600 ≤ c)

/-- Embedding of `publish_to_webhook` (source lines 460-519).  The transport
is the `respond` parameter, mapping the `x-make-apikey` header value (`none` =
header absent) of a POST to its outcome; the payload and URL are fixed across
the at most two POSTs, so the header determines the request.  Returns the
boolean result together with the header values of the POSTs attempted, in
order. -/
def publish_to_webhook (url user pw : Option Str)
    (respond : Option Str → PostOutcome) : Bool × List (Option Str) :=
  if !(pyTruthy url) then (false, [])
  else
    let apiKey := pyOrOpt pw user
    let hdr := if pyTruthy apiKey then apiKey else none
    match respond hdr with
    | PostOutcome.timeoutErr => (false, [hdr])
    | PostOutcome.reqErr => (false, [hdr])
    | PostOutcome.status c1 =>
      if c1 ≠ 200 ∧ c1 = 401 ∧ pyTruthy user ∧ pyTruthy pw then
        let altKey := if apiKey = pw then user else pw
        match respond altKey with
        | PostOutcome.timeoutErr => (false, [hdr, altKey])
        | PostOutcome.reqErr => (false, [hdr, altKey])
        | PostOutcome.status c2 => (raiseOkStatus c2, [hdr, altKey])
      else (raiseOkStatus c1, [hdr])

/-! ### Specification-side definitions

These follow the wording of the specification claims (not the source) and are
compared against the embedded source functions. -/

/-- Claim C2's reading of the references boundary: the first line *starting*
with a references heading, bold or plain, case-insensitive. -/
def claimRefScan (atLS : Bool) (i : Nat) : Str → Option Nat
  | [] => none
  | c :: rest =>
    if atLS && (refBoldAt (c :: rest) || refPlainAt (c :: rest)) then some i
    else claimRefScan (c == '\n') (i + 1) rest

/-- Index of the first footnote definition marker (caret-bracketed integer
followed by a colon), per claim C2's wording. -/
def fnScanIdx : Nat → Str → Option Nat
  | _, [] => none
  | i, c :: rest => if fnMarkAt (c :: rest) then some i else fnScanIdx (i + 1) rest

/-- The (content, footnotes, references) regions as claim C2 describes them:
references from the first line-anchored heading; footnotes from the first
footnote definition marker within the remainder. -/
def claimRegions (doc : Str) : Str × Str × Str :=
  let c := stripMeta doc
  let mr : Str × Str :=
    match claimRefScan true 0 c with
    | some i => (c.take i, c.drop i)
    | none => (c, [])
  match fnScanIdx 0 mr.1 with
  | some j => (pyStrip (mr.1.take j), pyStrip (mr.1.drop j), pyStrip mr.2)
  | none => (pyStrip mr.1, [], pyStrip mr.2)

/-- The (content, footnotes, references) regions as the code actually fixes
them (the amended claim C2): references from the first match of the bold
heading anywhere or the plain heading at a line start; footnotes from the
first occurrence of the literal `[^1]:` within the remainder, if any. -/
def amendedRegions (doc : Str) : Str × Str × Str :=
  let c := stripMeta doc
  let mr : Str × Str :=
    match refScan true 0 c with
    | some i => (c.take i, c.drop i)
    | none => (c, [])
  match litIdx fnLit mr.1 with
  | some j => (pyStrip (mr.1.take j), pyStrip (mr.1.drop j), pyStrip mr.2)
  | none => (pyStrip mr.1, [], pyStrip mr.2)

/-- The region triple of a parse result. -/
def regionsOf (p : ParsedDoc) : Str × Str × Str := (p.content, p.footnotes, p.references)

/-- Whether the document contains the emphasized subject form (claim C3). -/
def claimHasEmphForm (doc : Str) : Bool := (searchSubjEmph doc).isSome

/-- Scan for a plain subject marker that starts at a line start (claim C3's
"line-leading" form). -/
def claimPlainLLScan (atLS : Bool) : Str → Bool
  | [] => false
  | c :: rest =>
    if atLS && (matchSubjPlainAt (c :: rest)).isSome then true
    else claimPlainLLScan (c == '\n') rest

/-- Whether the document contains a line-leading plain subject marker. -/
def claimHasPlainLL (doc : Str) : Bool := claimPlainLLScan true doc

/-- Maximum nesting depth of `opn`-`cls` tag pairs in a string (tags scanned
left to right, non-overlapping). -/
def nestScanGo (opn cls : Str) : Nat → Int → Int → Str → Int
  | 0, _, mx, _ => mx
  | _ + 1, _, mx, [] => mx
  | fuel + 1, d, mx, c :: cs =>
    if opn.isPrefixOf (c :: cs) then
      nestScanGo opn cls fuel (d + 1) (max mx (d + 1)) ((c :: cs).drop opn.length)
    else if cls.isPrefixOf (c :: cs) then
      nestScanGo opn cls fuel (d - 1) mx ((c :: cs).drop cls.length)
    else nestScanGo opn cls fuel d mx cs

/-- Maximum nesting depth of a tag pair in `s`. -/
def maxNestDepth (opn cls s : Str) : Int := nestScanGo opn cls s.length 0 0 s

/-! ### Concrete claim inputs -/

/-- The example raw document of claim C1 (spec section 8). -/
def docC1 : Str :=
  ("**SUBJECT LINE: Test**\n\nHello *world*.\n\n[^1]: a note\n\n**References:**\n- Source A").toList

/-- A document whose bold references heading sits mid-line and whose only
footnote definition uses index 2 (claim C2). -/
def docC2 : Str := ("a **References:** b\n[^2]: x").toList

/-- A document whose only subject marker is a plain form in the middle of a
line (claim C3). -/
def docC3 : Str := ("x SUBJECT LINE: q\n").toList

/-- A document leaving unpaired `**` delimiters in two paragraphs around a
converted bold span (claim C4). -/
def docC4 : Str := ("a**\n\n**b**\n\n**c").toList

/-- A template consisting of just the SUBJECT placeholder (claim C5). -/
def tplC5 : Str := tokSUBJECT

/-- A fixed rendering date (claim C5). -/
def dateC5 : Str := ("January 01, 2026").toList

/-- A newsletter whose subject line is the literal DATE placeholder (claim C5). -/
def newsC5 : Str := ("**SUBJECT LINE: \x7b\x7bDATE\x7d\x7d**\nbody").toList

/-- One save call, repeated 150 times from an empty store (claim C6). -/
def inputC6 : SaveInput := ((("u").toList), (("t").toList), (("x").toList), (("d").toList))

/-- The history file after 150 saves of `inputC6` from an empty store. -/
def histC6 : HistFile := (runSaves (List.replicate 150 inputC6) none).getD ⟨[], []⟩

/-- The emphasized subject marker text named by the specification, with the
canonical single `: ` separator (claim C3). -/
def emphMarker : Str :=
  ['*', '*', 'S', 'U', 'B', 'J', 'E', 'C', 'T', ' ', 'L', 'I', 'N', 'E', ':', ' ']

/-- The plain subject marker text named by the specification (claim C3). -/
def plainMarker : Str :=
  ['S', 'U', 'B', 'J', 'E', 'C', 'T', ' ', 'L', 'I', 'N', 'E', ':', ' ']

end Uncurve

namespace Uncurve

/-- Claim C1, first failing conjunct: on the claim's own example document,
`parse_newsletter` does not return "Hello *world*." as the content region; the
subject-line marker and its blank line are still part of it (they are only
stripped later, inside `markdown_to_html`). -/
theorem C1_counterexample :
    (parse_newsletter docC1).content ≠ ("Hello *world*.").toList := by decide

/-- Claim C1 as amended: on the example document the parse returns subject
"Test", content still carrying the subject marker, footnotes `[^1]: a note`
and references `**References:**\n- Source A`; the rendered content HTML
contains `<p>Hello <em>world</em>.</p>` and the rendered references HTML is
exactly `<ul><li>Source A</li></ul>`. -/
theorem C1_example_scenario :
    parse_newsletter docC1 =
      ⟨("Test").toList,
       ("**SUBJECT LINE: Test**\n\nHello *world*.").toList,
       ("[^1]: a note").toList,
       ("**References:**\n- Source A").toList⟩ ∧
    hasLit (("<p>Hello <em>world</em>.</p>").toList)
      (markdown_to_html (parse_newsletter docC1).content) = true ∧
    referencesHtmlOf (parse_newsletter docC1).references =
      ("<ul><li>Source A</li></ul>").toList := by decide

/-- Claim C2's region precedence fails on `docC2`: the claim predicts no
references region (no line starts with a heading) and a footnotes region from
`[^2]:`, while the code splits at the mid-line bold heading and leaves the
footnotes region empty. -/
theorem C2_counterexample :
    claimRegions docC2 = (("a **References:** b").toList, ("[^2]: x").toList, []) ∧
    regionsOf (parse_newsletter docC2) =
      (("a").toList, [], ("**References:** b\n[^2]: x").toList) ∧
    regionsOf (parse_newsletter docC2) ≠ claimRegions docC2 := by decide

/-- Claim C3 fails on `docC3`: the document contains neither the emphasized
form nor a line-leading plain form, yet the subject is "q", not the fallback —
the plain pattern is searched anywhere in the document, not at line starts. -/
theorem C3_counterexample :
    claimHasEmphForm docC3 = false ∧ claimHasPlainLL docC3 = false ∧
    (parse_newsletter docC3).subject ≠ fallbackSubject ∧
    (parse_newsletter docC3).subject = ("q").toList := by decide

/-- Claim C4's failing input, evaluated: the first conversion of `docC4`
produces `<strong>` nesting depth 1, and re-running the conversion on that
output wraps the converted `<strong>b</strong>` inside a new `<strong>`
element (depth 2) built from the left-over `**` delimiters — the
already-converted emphasis span is double-wrapped. -/
theorem C4_failing_input_evaluation :
    maxNestDepth (("<strong>").toList) (("</strong>").toList)
      (markdown_to_html docC4) = 1 ∧
    maxNestDepth (("<strong>").toList) (("</strong>").toList)
      (markdown_to_html (markdown_to_html docC4)) = 2 ∧
    hasLit (("<strong></p><p><strong>b</strong>").toList)
      (markdown_to_html (markdown_to_html docC4)) = true := by decide

/-- Claim C5 fails on `newsC5`/`tplC5`: the subject value substituted for
SUBJECT is the literal DATE placeholder, and the later DATE substitution
re-interprets it — the final HTML is the date, and the substituted token is
not left verbatim anywhere in the output. -/
theorem C5_counterexample :
    (parse_newsletter newsC5).subject = tokDATE ∧
    (build_html_email tplC5 dateC5 newsC5).2 = dateC5 ∧
    hasLit tokDATE (build_html_email tplC5 dateC5 newsC5).2 = false := by decide

set_option maxRecDepth 100000 in
/-- Claim C6 fails on 150 saves of the same URL: the persisted used-URL
collection is a list of length 100 (one entry per record, duplicates kept),
not a set of size 1 = the number of distinct URLs among the last 100 records. -/
theorem C6_counterexample :
    histC6.headlines.length = 100 ∧ histC6.used_urls.length = 100 ∧
    (histC6.headlines.map HistRec.url).dedup.length = 1 ∧
    histC6.used_urls.length ≠ (histC6.headlines.map HistRec.url).dedup.length := by
  decide

/-- Keeping the last `n` elements twice, with an interleaved append, is the
same as keeping the last `n` of the full concatenation. -/
theorem lastN_lastN_append {α : Type*} (n : Nat) (xs ys : List α) :
    lastN n (lastN n xs ++ ys) = lastN n (xs ++ ys) := by
  unfold lastN
  rcases le_or_lt xs.length n with h | h
  · have h0 : xs.length - n = 0 := by omega
    simp [h0]
  · have hA : (xs.drop (xs.length - n)).length = n := by
      rw [List.length_drop]
      omega
    rw [List.drop_append_eq_append_drop, List.drop_append_eq_append_drop,
      List.length_append, List.length_append, hA]
    rcases le_or_lt n ys.length with h2 | h2
    · rw [List.drop_eq_nil_of_le (show (xs.drop (xs.length - n)).length ≤
          n + ys.length - n by rw [hA]; omega),
        List.drop_eq_nil_of_le (show xs.length ≤ xs.length + ys.length - n by omega)]
      simp only [List.nil_append]
      congr 1
      omega
    · have e1 : n + ys.length - n - n = 0 := by omega
      have e2 : xs.length + ys.length - n - xs.length = 0 := by omega
      rw [e1, e2]
      simp only [List.drop_zero]
      congr 1
      have e3 : n + ys.length - n = ys.length := by omega
      rw [e3, List.drop_drop]
      congr 1
      omega

/-- Closed form of a nonempty run of history saves: the stored record list is
the last 100 of all records ever appended (previous contents first, then the
run's records in order), and the used-URL list is derived from it. -/
theorem runSaves_closed (inputs : List SaveInput) :
    ∀ st : Option HistFile, inputs ≠ [] →
      runSaves inputs st =
        some ⟨(lastN 100 (histOf st ++ inputs.map recOf)).map HistRec.url,
              lastN 100 (histOf st ++ inputs.map recOf)⟩ := by
  induction inputs with
  | nil => intro st hne; exact absurd rfl hne
  | cons i rest ih =>
    intro st _
    have hstep : runSaves (i :: rest) st =
        runSaves rest (some (save_headline_to_history st i.1 i.2.1 i.2.2.1 i.2.2.2)) := by
      simp [runSaves]
    rw [hstep]
    by_cases hr : rest = []
    · subst hr
      simp [runSaves, save_headline_to_history, histOf, recOf]
    · rw [ih _ hr]
      have hsave : histOf (some (save_headline_to_history st i.1 i.2.1 i.2.2.1 i.2.2.2)) =
          lastN 100 (histOf st ++ [recOf i]) := by
        simp [save_headline_to_history, histOf, recOf]
      rw [hsave, lastN_lastN_append]
      simp [List.append_assoc]

/-- Claim C6 as amended: starting from an empty history, 150 sequential saves
leave the persisted detailed-record list equal to the last 100 appended
records in order (length exactly 100, oldest dropped first), and the persisted
used-URL list equal to the URLs of those records in order — hence the set of
persisted URLs is the set of distinct URLs among the last 100 records, while
the persisted collection itself is a length-100 list that keeps duplicates. -/
theorem C6_history_capping (inputs : List SaveInput) (h : inputs.length = 150) :
    runSaves inputs none =
      some ⟨((inputs.map recOf).drop 50).map HistRec.url, (inputs.map recOf).drop 50⟩ ∧
    ((inputs.map recOf).drop 50).length = 100 := by
  have hne : inputs ≠ [] := by
    intro e
    rw [e] at h
    simp at h
  have hlen : (inputs.map recOf).length = 150 := by simp [h]
  have hc := runSaves_closed inputs none hne
  have h50 : lastN 100 (histOf none ++ inputs.map recOf) = (inputs.map recOf).drop 50 := by
    simp only [histOf, List.nil_append, lastN, hlen]
  constructor
  · rw [hc, h50]
  · simp [List.length_drop, hlen]

/-- Witness for `C6_history_capping` at a concrete run of 150 saves. -/
theorem C6_history_capping_witness :
    runSaves (List.replicate 150 inputC6) none =
      some ⟨(((List.replicate 150 inputC6).map recOf).drop 50).map HistRec.url,
            ((List.replicate 150 inputC6).map recOf).drop 50⟩ ∧
    (((List.replicate 150 inputC6).map recOf).drop 50).length = 100 :=
  C6_history_capping (List.replicate 150 inputC6) (by simp)

/-- Claim C7: with both credentials configured, the publisher uses the second
configured value (the password) for the first POST; when that POST returns
exactly HTTP 401, it retries exactly once with the other credential; with the
primary yielding 401 and the secondary yielding 200, it returns success after
exactly two POSTs. -/
theorem C7_credential_fallback (url : Option Str) (u p : Str)
    (respond : Option Str → PostOutcome)
    (hurl : pyTruthy url = true)
    (hu : pyTruthy (some u) = true) (hp : pyTruthy (some p) = true)
    (h401 : respond (some p) = PostOutcome.status 401)
    (h200 : respond (some u) = PostOutcome.status 200) :
    publish_to_webhook url (some u) (some p) respond = (true, [some p, some u]) := by
  simp [publish_to_webhook, pyOrOpt, hurl, hu, hp, h401, h200, raiseOkStatus]

/-- Witness for `C7_credential_fallback` at concrete credentials and a
transport answering 401 to the password and 200 to the user value. -/
theorem C7_credential_fallback_witness :
    publish_to_webhook (some (("w").toList)) (some (("usr").toList)) (some (("pwd").toList))
      (fun h => if h = some (("pwd").toList) then PostOutcome.status 401
                else PostOutcome.status 200) =
      (true, [some (("pwd").toList), some (("usr").toList)]) :=
  C7_credential_fallback _ _ _ _ (by decide) (by decide) (by decide)
    (by simp) (by simp)

/-- Claim C10: when at most one webhook credential is configured (and the URL
is), an HTTP 401 response is never retried — exactly one POST is attempted and
the publish returns failure. -/
theorem C10_single_post_on_401 (url user pw : Option Str)
    (respond : Option Str → PostOutcome)
    (hurl : pyTruthy url = true)
    (hone : ¬(pyTruthy user = true ∧ pyTruthy pw = true))
    (h401 : ∀ h, respond h = PostOutcome.status 401) :
    (publish_to_webhook url user pw respond).1 = false ∧
    (publish_to_webhook url user pw respond).2.length = 1 := by
  simp only [publish_to_webhook, hurl, Bool.not_true, Bool.false_eq_true, if_false, h401]
  rw [if_neg]
  · simp [raiseOkStatus]
  · intro hcon
    exact hone ⟨hcon.2.2.1, hcon.2.2.2⟩

/-- Witness for `C10_single_post_on_401` with only the password configured. -/
theorem C10_single_post_on_401_witness :
    (publish_to_webhook (some (("w").toList)) none (some (("pwd").toList))
      (fun _ => PostOutcome.status 401)).1 = false ∧
    (publish_to_webhook (some (("w").toList)) none (some (("pwd").toList))
      (fun _ => PostOutcome.status 401)).2.length = 1 :=
  C10_single_post_on_401 _ _ _ _ (by decide) (by decide) (fun _ => rfl)

/-- Claim C8: when the selection response is not valid JSON, `braider_select`
returns the degraded dict carrying only the raw response text; `main` then
records empty-string url/title/topic to the history store strictly before
generation, and the generation step reads placeholder defaults ("Unknown",
empty explanation, template 5 "Deep Dive") for every missing structured field;
no step of this path can fail. -/
theorem C8_degraded_selection (raw : Str) :
    braider_select_result raw none = [((("raw_response").toList), PyVal.str raw)] ∧
    main_select_and_generate raw none =
      [ PipeEvent.recorded (PyVal.str []) (PyVal.str []) (PyVal.str []),
        PipeEvent.generated (PyVal.str (("Unknown").toList))
          (PyVal.str (("Unknown").toList)) (PyVal.str (("Unknown").toList))
          (PyVal.str []) (PyVal.int 5) (PyVal.str (("Deep Dive").toList)) ] := by
  refine ⟨?_, ?_⟩
  · rfl
  · rfl

/-- Accumulator form of the de-duplication loop versus the keep-first
specification: skipping keys in `seen` first is filtering them away. -/
theorem dedupGo_eq_keepFirst (rs : List SearchHit) : ∀ seen : List (Option Str),
    dedupGo seen rs =
      (keepFirstTitles (rs.filter (fun r => decide (r.title ∉ seen)))).map mkCandidate := by
  induction rs with
  | nil =>
    intro seen
    simp [dedupGo, keepFirstTitles]
  | cons r rs ih =>
    intro seen
    by_cases h : r.title ∈ seen
    · have hd : (decide (r.title ∉ seen)) = false := by simp [h]
      simp only [dedupGo, if_pos h, List.filter_cons, hd, Bool.false_eq_true, if_false]
      exact ih seen
    · have hd : (decide (r.title ∉ seen)) = true := by simp [h]
      simp only [dedupGo, if_neg h, List.filter_cons, hd, if_true]
      rw [keepFirstTitles, List.map_cons]
      congr 1
      rw [List.filter_filter, ih (r.title :: seen)]
      congr 2
      apply List.filter_congr
      intro x _
      by_cases hx1 : x.title = r.title <;> by_cases hx2 : x.title ∈ seen <;>
        simp [hx1, hx2]

/-- The keep-first specification returns a sublist of its input. -/
theorem keepFirstTitles_sublist (rs : List SearchHit) :
    (keepFirstTitles rs).Sublist rs := by
  have H : ∀ n (l : List SearchHit), l.length ≤ n → (keepFirstTitles l).Sublist l := by
    intro n
    induction n with
    | zero =>
      intro l hl
      have : l = [] := List.eq_nil_of_length_eq_zero (Nat.le_zero.mp hl)
      subst this
      simp [keepFirstTitles]
    | succ n ih =>
      intro l hl
      match l with
      | [] => simp [keepFirstTitles]
      | r :: rs =>
        rw [keepFirstTitles]
        apply List.Sublist.cons₂
        exact (ih _ (le_trans (List.length_filter_le _ _)
          (Nat.succ_le_succ_iff.mp hl))).trans (List.filter_sublist rs)
  exact H rs.length rs (Nat.le_refl _)

/-- Helper: the de-duplication of `scout_headlines` equals the keep-first
specification mapped through candidate construction. -/
theorem dedup_by_title_eq_keepFirst (rs : List SearchHit) :
    dedup_by_title rs = (keepFirstTitles rs).map mkCandidate := by
  have := dedupGo_eq_keepFirst rs []
  simpa [dedup_by_title] using this

/-- Claim C9: the headline adapter de-duplicates by exact title key with the
first occurrence winning (it computes exactly the keep-first filtering of the
result sequence), the retained candidates appear in their original relative
order (a sublist of the input image), and of two candidates with identical
titles and different URLs only the first-seen one is retained. -/
theorem C9_dedup_first_wins :
    (∀ rs : List SearchHit,
        dedup_by_title rs = (keepFirstTitles rs).map mkCandidate) ∧
    (∀ rs : List SearchHit, (dedup_by_title rs).Sublist (rs.map mkCandidate)) ∧
    (∀ a b : SearchHit, a.title = b.title → a.url ≠ b.url →
        dedup_by_title [a, b] = [mkCandidate a]) := by
  refine ⟨dedup_by_title_eq_keepFirst, fun rs => ?_, fun a b h1 _ => ?_⟩
  · rw [dedup_by_title_eq_keepFirst]
    exact (keepFirstTitles_sublist rs).map mkCandidate
  · simp [dedup_by_title, dedupGo, h1]

/-- Witness for `C9_dedup_first_wins` at two concrete candidates sharing a
title but not a URL. -/
theorem C9_dedup_first_wins_witness :
    dedup_by_title
      [⟨some (("T").toList), some [], some (("u1").toList), some []⟩,
       ⟨some (("T").toList), some [], some (("u2").toList), some []⟩] =
      [⟨("T").toList, [], ("u1").toList, []⟩] :=
  C9_dedup_first_wins.2.2
    ⟨some (("T").toList), some [], some (("u1").toList), some []⟩
    ⟨some (("T").toList), some [], some (("u2").toList), some []⟩
    rfl (by decide)

/-- A list is a prefix of itself extended by anything. -/
theorem isPrefixOf_self_append (p b : Str) : p.isPrefixOf (p ++ b) = true := by
  induction p with
  | nil => simp [List.isPrefixOf]
  | cons c p ih => simp [List.isPrefixOf, ih]

/-- If neither of two lists is a (Boolean) prefix of the other, the first
cannot become a prefix after extending the second: the mismatch happens inside
the overlap. -/
theorem isPrefixOf_append_false (pat : Str) :
    ∀ (t b : Str), pat.isPrefixOf t = false → t.isPrefixOf pat = false →
      pat.isPrefixOf (t ++ b) = false := by
  induction pat with
  | nil => intro t b h1 _; simp [List.isPrefixOf] at h1
  | cons p ps ih =>
    intro t b h1 h2
    match t with
    | [] => simp [List.isPrefixOf] at h2
    | c :: t' =>
      simp only [List.cons_append, List.isPrefixOf] at h1 h2 ⊢
      by_cases hpc : p = c
      · subst hpc
        simp only [beq_self_eq_true, Bool.true_and] at h1 h2 ⊢
        exact ih t' b h1 h2
      · simp [beq_eq_false_iff_ne.mpr hpc]

/-- Any fuel computes `repAllGo` on the empty list to the empty list. -/
theorem repAllGo_nil_eq (pat rep : Str) (f : Nat) : repAllGo pat rep f [] = [] := by
  cases f <;> rfl

/-- The fuel of `repAllGo` is irrelevant once it covers the text length. -/
theorem repAllGo_fuel_eq (pat rep : Str) (hp : pat ≠ []) :
    ∀ (n : Nat) (t : Str) (f g : Nat), t.length ≤ n → t.length ≤ f → t.length ≤ g →
      repAllGo pat rep f t = repAllGo pat rep g t := by
  have hp1 : 1 ≤ pat.length := List.length_pos.mpr hp
  intro n
  induction n with
  | zero =>
    intro t f g hn _ _
    have ht : t = [] := List.eq_nil_of_length_eq_zero (Nat.le_zero.mp hn)
    subst ht
    rw [repAllGo_nil_eq, repAllGo_nil_eq]
  | succ n ih =>
    intro t f g hn hf hg
    match t with
    | [] => rw [repAllGo_nil_eq, repAllGo_nil_eq]
    | c :: t' =>
      match f, g with
      | 0, _ => simp at hf
      | _ + 1, 0 => simp at hg
      | f' + 1, g' + 1 =>
        simp only [List.length_cons] at hn hf hg
        simp only [repAllGo]
        by_cases hpre : pat.isPrefixOf (c :: t') = true
        · rw [if_pos hpre, if_pos hpre]
          congr 1
          apply ih
          · simp only [List.length_drop, List.length_cons]
            omega
          · simp only [List.length_drop, List.length_cons]
            omega
          · simp only [List.length_drop, List.length_cons]
            omega
        · rw [if_neg hpre, if_neg hpre]
          congr 1
          apply ih <;> omega

/-- Scanning past a block in which the pattern can match at no position
leaves the block unchanged and continues after it. -/
theorem repAllGo_skip_block (pat rep : Str) :
    ∀ (X b : Str), (∀ i, i < X.length → pat.isPrefixOf (X.drop i ++ b) = false) →
      repAllGo pat rep (X ++ b).length (X ++ b) = X ++ repAllGo pat rep b.length b := by
  intro X
  induction X with
  | nil => intro b _; simp
  | cons x X' ih =>
    intro b hX
    have h0 : pat.isPrefixOf (x :: (X' ++ b)) = false := by
      have := hX 0 (by simp)
      simpa using this
    show repAllGo pat rep ((x :: (X' ++ b)).length) (x :: (X' ++ b)) = _
    simp only [List.length_cons, repAllGo]
    rw [if_neg (by simp [h0])]
    simp only [List.cons_append]
    congr 1
    apply ih
    intro i hi
    have := hX (i + 1) (by simpa using Nat.succ_lt_succ hi)
    simpa using this

/-- In a block without `'{'`, a pattern starting with `'{'` matches nowhere. -/
theorem no_brace_block (pat : Str) (hh : pat.head? = some ('{')) (a t : Str)
    (ha : ('{') ∉ a) :
    ∀ i, i < a.length → pat.isPrefixOf (a.drop i ++ t) = false := by
  intro i hi
  obtain ⟨p, pr, rfl⟩ : ∃ p pr, pat = p :: pr := by
    cases pat with
    | nil => simp at hh
    | cons p pr => exact ⟨p, pr, rfl⟩
  have hp : p = '{' := by simpa using hh
  rw [List.drop_eq_getElem_cons hi]
  have hne : ('{') ≠ a[i] := by
    intro e
    exact ha (e ▸ List.getElem_mem hi)
  subst hp
  simp [List.isPrefixOf, beq_eq_false_iff_ne.mpr hne]

/-- `str.replace` with a brace-leading pattern is the identity on brace-free
text. -/
theorem repAll_no_brace (pat rep : Str) (hh : pat.head? = some ('{')) (t : Str)
    (ht : ('{') ∉ t) : repAll pat rep t = t := by
  obtain ⟨p, pr, rfl⟩ : ∃ p pr, pat = p :: pr := by
    cases pat with
    | nil => simp at hh
    | cons p pr => exact ⟨p, pr, rfl⟩
  show repAllGo (p :: pr) rep t.length t = t
  have := repAllGo_skip_block (p :: pr) rep t [] (by
    intro i hi
    simpa using no_brace_block (p :: pr) hh t [] ht i hi)
  simpa [repAllGo_nil_eq] using this

/-- `str.replace` rewrites the pattern when it sits at the head of the text. -/
theorem repAllGo_head_match (pat rep : Str) (hp : pat ≠ []) (b : Str) :
    repAllGo pat rep (pat ++ b).length (pat ++ b) = rep ++ repAllGo pat rep b.length b := by
  obtain ⟨p, pr, rfl⟩ : ∃ p pr, pat = p :: pr := by
    cases pat with
    | nil => exact absurd rfl hp
    | cons p pr => exact ⟨p, pr, rfl⟩
  show repAllGo (p :: pr) rep ((p :: (pr ++ b)).length) (p :: (pr ++ b)) = _
  simp only [List.length_cons, repAllGo]
  rw [if_pos (show (p :: pr).isPrefixOf (p :: (pr ++ b)) = true from
    isPrefixOf_self_append (p :: pr) b)]
  congr 1
  have hdrop : List.drop (pr.length + 1) (p :: (pr ++ b)) = b := List.drop_left (p :: pr) b
  rw [hdrop]
  apply repAllGo_fuel_eq _ _ hp ((pr ++ b).length)
  · simp
  · simp
  · exact Nat.le_refl _

/-- `str.replace` on `a ++ pat ++ b` with brace-free `a` and a brace-leading
pattern: the occurrence after `a` is rewritten and scanning continues in `b`. -/
theorem repAll_split (pat rep : Str) (hh : pat.head? = some ('{')) (a b : Str)
    (ha : ('{') ∉ a) :
    repAll pat rep (a ++ pat ++ b) = a ++ rep ++ repAll pat rep b := by
  obtain ⟨p, pr, hpat⟩ : ∃ p pr, pat = p :: pr := by
    cases pat with
    | nil => simp at hh
    | cons p pr => exact ⟨p, pr, rfl⟩
  have hp : pat ≠ [] := by rw [hpat]; simp
  rw [List.append_assoc]
  have h1 : repAll pat rep (a ++ (pat ++ b)) =
      repAllGo pat rep (a ++ (pat ++ b)).length (a ++ (pat ++ b)) := by
    rw [hpat]; rfl
  rw [h1, repAllGo_skip_block pat rep a (pat ++ b) (no_brace_block pat hh a (pat ++ b) ha),
    repAllGo_head_match pat rep hp b]
  have h2 : repAll pat rep b = repAllGo pat rep b.length b := by
    rw [hpat]; rfl
  rw [← h2, List.append_assoc]

/-- `str.replace` leaves `a ++ X ++ b` unchanged when `a` and `b` are
brace-free and the pattern mismatches inside every suffix of the block `X`. -/
theorem repAll_block_verbatim (pat rep : Str) (hh : pat.head? = some ('{'))
    (a X b : Str) (ha : ('{') ∉ a) (hb : ('{') ∉ b)
    (hX : ∀ i, i < X.length → pat.isPrefixOf (X.drop i) = false ∧
      (X.drop i).isPrefixOf pat = false) :
    repAll pat rep (a ++ X ++ b) = a ++ X ++ b := by
  obtain ⟨p, pr, hpat⟩ : ∃ p pr, pat = p :: pr := by
    cases pat with
    | nil => simp at hh
    | cons p pr => exact ⟨p, pr, rfl⟩
  have h1 : repAll pat rep (a ++ X ++ b) =
      repAllGo pat rep (a ++ (X ++ b)).length (a ++ (X ++ b)) := by
    rw [hpat, List.append_assoc]; rfl
  rw [h1, repAllGo_skip_block pat rep a (X ++ b) (no_brace_block pat hh a (X ++ b) ha),
    repAllGo_skip_block pat rep X b
      (fun i hi => isPrefixOf_append_false pat (X.drop i) b (hX i hi).1 (hX i hi).2)]
  have h2 : repAllGo pat rep b.length b = b := by
    have h3 : repAll pat rep b = repAllGo pat rep b.length b := by
      rw [hpat]; rfl
    rw [← h3]
    exact repAll_no_brace pat rep hh b hb
  rw [h2, List.append_assoc]

/-- Claim C5 as amended: the final assembly substitutes every placeholder at
every occurrence by a sequential chain of literal replaces in the fixed order
SUBJECT, DATE, CONTENT, FOOTNOTES, REFERENCES, PERSONAL_NOTE.  A brace-free
template is left untouched; SUBJECT is replaced at each of its occurrences; a
subject value that is itself the DATE placeholder is re-interpreted by the
later DATE substitution; and a value containing an earlier-substituted
placeholder (here: a references value equal to the SUBJECT token) is left
verbatim in the output. -/
theorem C5_substitution_order :
    (∀ template today s cH fH rH : Str, ('{') ∉ template →
        assemble template today s cH fH rH = template) ∧
    (∀ a b today cH fH rH : Str, ('{') ∉ a → ('{') ∉ b → ('{') ∉ today →
        assemble (a ++ tokSUBJECT ++ b) today tokDATE cH fH rH = a ++ today ++ b) ∧
    (∀ a b today s cH fH : Str, ('{') ∉ a → ('{') ∉ b → ('{') ∉ today →
        assemble (a ++ tokREFERENCES ++ b) today s cH fH tokSUBJECT =
          a ++ tokSUBJECT ++ b) ∧
    (∀ a b c today s cH fH rH : Str,
        ('{') ∉ a → ('{') ∉ b → ('{') ∉ c → ('{') ∉ s → ('{') ∉ today →
        assemble (a ++ tokSUBJECT ++ b ++ tokSUBJECT ++ c) today s cH fH rH =
          a ++ s ++ b ++ s ++ c) := by
  refine ⟨?_, ?_, ?_, ?_⟩
  · intro template today s cH fH rH ht
    simp only [assemble]
    rw [repAll_no_brace tokSUBJECT s rfl template ht,
      repAll_no_brace tokDATE today rfl template ht,
      repAll_no_brace tokCONTENT cH rfl template ht,
      repAll_no_brace tokFOOTNOTES _ rfl template ht,
      repAll_no_brace tokREFERENCES _ rfl template ht,
      repAll_no_brace tokPERSONAL _ rfl template ht]
  · intro a b today cH fH rH ha hb htoday
    simp only [assemble]
    rw [repAll_split tokSUBJECT tokDATE rfl a b ha,
      repAll_no_brace tokSUBJECT tokDATE rfl b hb,
      repAll_split tokDATE today rfl a b ha,
      repAll_no_brace tokDATE today rfl b hb]
    have hfree : ('{') ∉ a ++ today ++ b := by
      simp only [List.mem_append]
      rintro ((h | h) | h)
      exacts [ha h, htoday h, hb h]
    rw [repAll_no_brace tokCONTENT cH rfl _ hfree,
      repAll_no_brace tokFOOTNOTES _ rfl _ hfree,
      repAll_no_brace tokREFERENCES _ rfl _ hfree,
      repAll_no_brace tokPERSONAL _ rfl _ hfree]
  · intro a b today s cH fH ha hb htoday
    simp only [assemble]
    rw [repAll_block_verbatim tokSUBJECT s rfl a tokREFERENCES b ha hb (by decide),
      repAll_block_verbatim tokDATE today rfl a tokREFERENCES b ha hb (by decide),
      repAll_block_verbatim tokCONTENT cH rfl a tokREFERENCES b ha hb (by decide),
      repAll_block_verbatim tokFOOTNOTES _ rfl a tokREFERENCES b ha hb (by decide),
      show (if (tokSUBJECT).isEmpty = true then noRefsHtml else tokSUBJECT) =
        tokSUBJECT from rfl,
      repAll_split tokREFERENCES tokSUBJECT rfl a b ha,
      repAll_no_brace tokREFERENCES tokSUBJECT rfl b hb,
      repAll_block_verbatim tokPERSONAL _ rfl a tokSUBJECT b ha hb (by decide)]
  · intro a b c today s cH fH rH ha hb hc hs htoday
    simp only [assemble]
    rw [List.append_assoc (a ++ tokSUBJECT ++ b), List.append_assoc (a ++ tokSUBJECT),
      repAll_split tokSUBJECT s rfl a (b ++ (tokSUBJECT ++ c)) ha,
      show b ++ (tokSUBJECT ++ c) = b ++ tokSUBJECT ++ c from
        (List.append_assoc b tokSUBJECT c).symm,
      repAll_split tokSUBJECT s rfl b c hb,
      repAll_no_brace tokSUBJECT s rfl c hc]
    have hfree : ('{') ∉ a ++ s ++ (b ++ s ++ c) := by
      simp only [List.mem_append]
      rintro ((h | h) | ((h | h) | h))
      exacts [ha h, hs h, hb h, hs h, hc h]
    rw [repAll_no_brace tokDATE today rfl _ hfree,
      repAll_no_brace tokCONTENT cH rfl _ hfree,
      repAll_no_brace tokFOOTNOTES _ rfl _ hfree,
      repAll_no_brace tokREFERENCES _ rfl _ hfree,
      repAll_no_brace tokPERSONAL _ rfl _ hfree]
    simp [List.append_assoc]

/-- Witness for `C5_substitution_order`, instantiating all four parts at
concrete templates and values. -/
theorem C5_substitution_order_witness :
    assemble (("plain").toList) (("D").toList) (("s").toList) [] [] [] =
      ("plain").toList ∧
    assemble ((("<").toList) ++ tokSUBJECT ++ ((">").toList)) (("D").toList) tokDATE
      [] [] [] = (("<").toList) ++ (("D").toList) ++ ((">").toList) ∧
    assemble ((("<").toList) ++ tokREFERENCES ++ ((">").toList)) (("D").toList)
      (("s").toList) [] [] tokSUBJECT =
      (("<").toList) ++ tokSUBJECT ++ ((">").toList) ∧
    assemble ((("<").toList) ++ tokSUBJECT ++ (("-").toList) ++ tokSUBJECT ++
        ((">").toList)) (("D").toList) (("s").toList) [] [] [] =
      (("<").toList) ++ (("s").toList) ++ (("-").toList) ++ (("s").toList) ++
        ((">").toList) :=
  ⟨C5_substitution_order.1 _ _ _ _ _ _ (by decide),
   C5_substitution_order.2.1 _ _ _ _ _ _ (by decide) (by decide) (by decide),
   C5_substitution_order.2.2.1 _ _ _ _ _ _ (by decide) (by decide) (by decide),
   C5_substitution_order.2.2.2 _ _ _ _ _ _ _ _ (by decide) (by decide) (by decide)
     (by decide) (by decide)⟩

/-- A successful literal search yields a decomposition around the pattern. -/
theorem litIdxGo_some_decomp (pat : Str) :
    ∀ (s : Str) (i j : Nat), litIdxGo pat i s = some j → ∃ x y, s = x ++ pat ++ y := by
  intro s
  induction s with
  | nil =>
    intro i j h
    simp only [litIdxGo] at h
    by_cases hp : pat.isPrefixOf [] = true
    · have : pat = [] := by
        cases pat with
        | nil => rfl
        | cons p pr => simp [List.isPrefixOf] at hp
      exact ⟨[], [], by simp [this]⟩
    · rw [if_neg hp] at h
      exact absurd h (by simp)
  | cons c s' ih =>
    intro i j h
    simp only [litIdxGo] at h
    by_cases hp : pat.isPrefixOf (c :: s') = true
    · obtain ⟨r, hr⟩ := List.isPrefixOf_iff_prefix.mp hp
      exact ⟨[], r, by simp [← hr]⟩
    · rw [if_neg hp] at h
      obtain ⟨x, y, hxy⟩ := ih (i + 1) j h
      exact ⟨c :: x, y, by simp [hxy]⟩

/-- The literal search succeeds when the pattern is a prefix of the text. -/
theorem litIdxGo_isSome_of_pre (pat s : Str) (i : Nat)
    (h : pat.isPrefixOf s = true) : (litIdxGo pat i s).isSome = true := by
  cases s <;> simp [litIdxGo, h]

/-- The literal search keeps any hit found further right. -/
theorem litIdxGo_isSome_cons (pat : Str) (c : Char) (s : Str) (i : Nat)
    (h : (litIdxGo pat (i + 1) s).isSome = true) :
    (litIdxGo pat i (c :: s)).isSome = true := by
  simp only [litIdxGo]
  split
  · simp
  · exact h

/-- Whether the literal search succeeds does not depend on the running index. -/
theorem litIdxGo_isSome_idx (pat : Str) :
    ∀ (s : Str) (i j : Nat), (litIdxGo pat i s).isSome = (litIdxGo pat j s).isSome := by
  intro s
  induction s with
  | nil => intro i j; simp only [litIdxGo]; split <;> simp
  | cons c s' ih =>
    intro i j
    simp only [litIdxGo]
    split
    · simp
    · exact ih (i + 1) (j + 1)

/-- A text containing the literal pattern passes the `hasLit` test. -/
theorem hasLit_of_decomp (pat : Str) : ∀ (x y : Str),
    hasLit pat (x ++ pat ++ y) = true := by
  intro x
  induction x with
  | nil =>
    intro y
    simpa [hasLit, litIdx] using
      litIdxGo_isSome_of_pre pat (pat ++ y) 0 (isPrefixOf_self_append pat y)
  | cons c x' ih =>
    intro y
    simp only [hasLit, litIdx, List.cons_append] at ih ⊢
    apply litIdxGo_isSome_cons
    rw [litIdxGo_isSome_idx pat (x' ++ pat ++ y) (0 + 1) 0]
    exact ih y

/-- A text containing the literal `[^1]:` contains a footnote marker. -/
theorem hasFnMark_of_lit : ∀ (x y : Str),
    hasFnMark (x ++ fnLit ++ y) = true := by
  intro x
  induction x with
  | nil =>
    intro y
    simp only [fnLit, List.nil_append, List.cons_append]
    simp [hasFnMark, fnMarkAt, List.takeWhile, List.isPrefixOf]
  | cons c x' ih =>
    intro y
    have h1 : (c :: x') ++ fnLit ++ y = c :: (x' ++ fnLit ++ y) := by simp
    rw [h1, hasFnMark, ih y, Bool.or_true]

/-- Claim C2 as amended: the regions produced by `parse_newsletter` are
exactly those of the two-stage description — references from the first match
of the bold heading anywhere or the plain heading at a line start, and
footnotes from the first occurrence of the literal `[^1]:` inside the
remaining pre-references region (empty when that literal is absent there).
In particular the redundant gates of the source (the `[^1]:` search on the
whole stripped document and the `findall` non-emptiness check) never change
the outcome. -/
theorem C2_region_precedence (doc : Str) :
    regionsOf (parse_newsletter doc) = amendedRegions doc := by
  simp only [parse_newsletter, amendedRegions, regionsOf]
  cases href : refScan true 0 (stripMeta doc) with
  | none =>
    cases hlit : litIdx fnLit (stripMeta doc) with
    | none => simp [hasLit, hlit, pyStrip]
    | some j =>
      have h2 : hasFnMark (stripMeta doc) = true := by
        obtain ⟨x, y, hxy⟩ := litIdxGo_some_decomp _ _ 0 j (by simpa [litIdx] using hlit)
        rw [hxy]
        exact hasFnMark_of_lit x y
      simp [hasLit, hlit, h2]
  | some i =>
    cases hlit : litIdx fnLit ((stripMeta doc).take i) with
    | none =>
      cases hf : hasLit fnLit (stripMeta doc) <;>
        cases hm : hasFnMark ((stripMeta doc).take i) <;>
          simp [hf, hm, hlit, pyStrip]
    | some j =>
      obtain ⟨x, y, hxy⟩ := litIdxGo_some_decomp _ _ 0 j (by simpa [litIdx] using hlit)
      have h2 : hasFnMark ((stripMeta doc).take i) = true := by
        rw [hxy]
        exact hasFnMark_of_lit x y
      have h1 : hasLit fnLit (stripMeta doc) = true := by
        have hdecomp : stripMeta doc =
            x ++ fnLit ++ (y ++ (stripMeta doc).drop i) := by
          conv_lhs => rw [← List.take_append_drop i (stripMeta doc)]
          rw [hxy, List.append_assoc]
        rw [hdecomp]
        exact hasLit_of_decomp _ x (y ++ (stripMeta doc).drop i)
      simp [h1, h2, hlit]

/-- A failed case-insensitive search means the pattern matches at no position. -/
theorem ciIdxGo_none_drop (pat : Str) : ∀ (s : Str) (i : Nat),
    ciIdxGo pat i s = none → ∀ j, ciPre pat (s.drop j) = false := by
  intro s
  induction s with
  | nil =>
    intro i h j
    simp only [ciIdxGo] at h
    simp only [List.drop_nil]
    cases hcp : ciPre pat [] with
    | false => rfl
    | true => rw [if_pos hcp] at h; cases h
  | cons c rest ih =>
    intro i h j
    simp only [ciIdxGo] at h
    cases hcp : ciPre pat (c :: rest) with
    | true => rw [if_pos hcp] at h; cases h
    | false =>
      rw [if_neg (by simp [hcp])] at h
      cases j with
      | zero => simpa using hcp
      | succ j' => simpa using ih (i + 1) h j'

/-- Before the first case-insensitive hit, the pattern matches at no position. -/
theorem ciIdxGo_some_before (pat : Str) : ∀ (s : Str) (i n : Nat),
    ciIdxGo pat i s = some n → ∀ j, j + i < n → ciPre pat (s.drop j) = false := by
  intro s
  induction s with
  | nil =>
    intro i n h j hj
    simp only [ciIdxGo] at h
    cases hcp : ciPre pat [] with
    | false => simp [hcp]
    | true =>
      rw [if_pos hcp] at h
      cases h
      exact absurd hj (by omega)
  | cons c rest ih =>
    intro i n h j hj
    simp only [ciIdxGo] at h
    cases hcp : ciPre pat (c :: rest) with
    | true =>
      rw [if_pos hcp] at h
      cases h
      exact absurd hj (by omega)
    | false =>
      rw [if_neg (by simp [hcp])] at h
      cases j with
      | zero => simpa using hcp
      | succ j' => simpa using ih (i + 1) n h j' (by omega)

/-- A failed occurrence test means the underlying search returned no index. -/
theorem ciHas_false_none (pat doc : Str) (h : ciHas pat doc = false) :
    ciIdx pat doc = none := by
  have h2 : (ciIdx pat doc).isSome = false := h
  cases hx : ciIdx pat doc with
  | none => rfl
  | some m => rw [hx] at h2; simp at h2

/-- The emphasized-subject search fails when its guard fails at every position. -/
theorem searchSubjEmph_none : ∀ (t : Str),
    (∀ j, ciPre subjEmphPat (t.drop j) = false) → searchSubjEmph t = none := by
  intro t
  induction t with
  | nil => intro _; rfl
  | cons c rest ih =>
    intro h
    have h0 : ciPre subjEmphPat (c :: rest) = false := by simpa using h 0
    simp only [searchSubjEmph, matchSubjEmphAt, h0, Bool.false_eq_true, if_false]
    exact ih (fun j => by simpa using h (j + 1))

/-- The plain-subject search fails when its guard fails at every position. -/
theorem searchSubjPlain_none : ∀ (t : Str),
    (∀ j, ciPre subjPlainPat (t.drop j) = false) → searchSubjPlain t = none := by
  intro t
  induction t with
  | nil => intro _; rfl
  | cons c rest ih =>
    intro h
    have h0 : ciPre subjPlainPat (c :: rest) = false := by simpa using h 0
    simp only [searchSubjPlain, matchSubjPlainAt, h0, Bool.false_eq_true, if_false]
    exact ih (fun j => by simpa using h (j + 1))

/-- The emphasized-subject search skips a prefix where its guard never holds. -/
theorem searchSubjEmph_append : ∀ (a T : Str),
    (∀ i, i < a.length → ciPre subjEmphPat (a.drop i ++ T) = false) →
    searchSubjEmph (a ++ T) = searchSubjEmph T := by
  intro a
  induction a with
  | nil => intro T _; rfl
  | cons c a' ih =>
    intro T h
    have hc : ciPre subjEmphPat (c :: (a' ++ T)) = false := by simpa using h 0 (by simp)
    have h0 : matchSubjEmphAt (c :: (a' ++ T)) = none := by
      simp only [matchSubjEmphAt, hc, Bool.false_eq_true, if_false]
    simp only [List.cons_append, searchSubjEmph, List.append_eq, h0]
    exact ih T (fun i hi => by simpa using h (i + 1) (by simpa using Nat.succ_lt_succ hi))

/-- The plain-subject search skips a prefix where its guard never holds. -/
theorem searchSubjPlain_append : ∀ (a T : Str),
    (∀ i, i < a.length → ciPre subjPlainPat (a.drop i ++ T) = false) →
    searchSubjPlain (a ++ T) = searchSubjPlain T := by
  intro a
  induction a with
  | nil => intro T _; rfl
  | cons c a' ih =>
    intro T h
    have hc : ciPre subjPlainPat (c :: (a' ++ T)) = false := by simpa using h 0 (by simp)
    have h0 : matchSubjPlainAt (c :: (a' ++ T)) = none := by
      simp only [matchSubjPlainAt, hc, Bool.false_eq_true, if_false]
    simp only [List.cons_append, searchSubjPlain, List.append_eq, h0]
    exact ih T (fun i hi => by simpa using h (i + 1) (by simpa using Nat.succ_lt_succ hi))

/-- A match at the current position is what the emphasized-subject search returns. -/
theorem searchSubjEmph_at_head (t : Str) (r : Str × Str) (hne : t ≠ [])
    (h : matchSubjEmphAt t = some r) : searchSubjEmph t = some r := by
  cases t with
  | nil => exact absurd rfl hne
  | cons c u => simp only [searchSubjEmph, h]

/-- A match at the current position is what the plain-subject search returns. -/
theorem searchSubjPlain_at_head (t : Str) (r : Str × Str) (hne : t ≠ [])
    (h : matchSubjPlainAt t = some r) : searchSubjPlain t = some r := by
  cases t with
  | nil => exact absurd rfl hne
  | cons c u => simp only [searchSubjPlain, h]

/-- The emphasized pattern begins with `**` followed by the plain pattern. -/
theorem ciPre_emph_plain : ∀ (t : Str), ciPre subjEmphPat t = true →
    ciPre subjPlainPat (t.drop 2) = true := by
  intro t h
  match t with
  | [] => simp [subjEmphPat, ciPre] at h
  | [c] => simp [subjEmphPat, ciPre] at h
  | c1 :: c2 :: t' =>
    have he : subjEmphPat = '*' :: '*' :: subjPlainPat := rfl
    rw [he] at h
    simp only [ciPre, Bool.and_eq_true] at h
    have hd : (c1 :: c2 :: t').drop 2 = t' := rfl
    rw [hd]
    exact h.2.2

/-- Without a plain-pattern occurrence there is no emphasized-pattern occurrence. -/
theorem ciPre_emph_all_false (doc : Str)
    (hp : ∀ j, ciPre subjPlainPat (doc.drop j) = false) :
    ∀ j, ciPre subjEmphPat (doc.drop j) = false := by
  intro j
  cases h2 : ciPre subjEmphPat (doc.drop j) with
  | false => rfl
  | true =>
    exfalso
    have h3 := ciPre_emph_plain _ h2
    rw [List.drop_drop] at h3
    rw [hp] at h3
    exact Bool.false_ne_true h3

/-- Dropping strictly inside the left part of an append stays inside it. -/
theorem drop_append_of_lt (a T : Str) (i : Nat) (hi : i < a.length) :
    (a ++ T).drop i = a.drop i ++ T := by
  rw [List.drop_append_eq_append_drop]
  have h0 : i - a.length = 0 := by omega
  rw [h0, List.drop_zero]

/-- The `**` terminator rejects any other head character. -/
theorem litTerm_star_off (c : Char) (t : Str) (hc : ¬ c = '*') :
    litTerm starStar (c :: t) = none := by
  simp [litTerm, starStar, List.isPrefixOf]
  intro h
  exact (hc h.symm).elim

/-- The `[\n\r]` terminator rejects any other head character. -/
theorem nlTerm_off (c : Char) (t : Str) (h1 : ¬ c = '\n') (h2 : ¬ c = '\r') :
    nlTerm (c :: t) = none := by
  simp [nlTerm, h1, h2]

/-- The `**` terminator accepts a leading `**` and drops it. -/
theorem litTerm_star_hit (b : Str) : litTerm starStar ('*' :: '*' :: b) = some b := by
  simp [litTerm, starStar, List.isPrefixOf]

/-- The lazy-capture loop under the `**` terminator consumes exactly the clean
stretch before the first `**`. -/
theorem capGo_star (b : Str) : ∀ (m acc : Str),
    (∀ c ∈ m, ¬ c = '*' ∧ ¬ c = '\n') →
    capGo (litTerm starStar) acc (m ++ ('*' :: '*' :: b)) = some (acc.reverse ++ m, b) := by
  intro m
  induction m with
  | nil =>
    intro acc _
    simp [capGo, litTerm_star_hit b]
  | cons c m' ih =>
    intro acc hm
    have hc : ¬ c = '*' ∧ ¬ c = '\n' := hm c (by simp)
    have hrec := ih (c :: acc) (fun d hd => hm d (by simp [hd]))
    simp only [List.cons_append, capGo, litTerm_star_off c _ hc.1]
    rw [if_neg (by simpa using hc.2)]
    simp only [List.append_eq]
    rw [hrec]
    simp

/-- The full lazy capture under the `**` terminator takes the clean stretch
before the first `**`. -/
theorem capLazy_star (s b : Str) (hs : s ≠ [])
    (h : ∀ c ∈ s, ¬ c = '*' ∧ ¬ c = '\n') :
    capLazy (litTerm starStar) (s ++ ('*' :: '*' :: b)) = some (s, b) := by
  cases s with
  | nil => exact absurd rfl hs
  | cons s0 s' =>
    have h0 : ¬ s0 = '*' ∧ ¬ s0 = '\n' := h s0 (by simp)
    have hrec := capGo_star b s' [s0] (fun d hd => h d (by simp [hd]))
    simp only [List.cons_append, capLazy]
    rw [if_neg (by simpa using h0.2)]
    rw [hrec]
    simp

/-- The lazy-capture loop under the newline terminator consumes exactly the
stretch before the first newline. -/
theorem capGo_nl (b : Str) : ∀ (m acc : Str),
    (∀ c ∈ m, ¬ c = '\n' ∧ ¬ c = '\r') →
    capGo nlTerm acc (m ++ ('\n' :: b)) = some (acc.reverse ++ m, b) := by
  intro m
  induction m with
  | nil =>
    intro acc _
    simp [capGo, nlTerm]
  | cons c m' ih =>
    intro acc hm
    have hc : ¬ c = '\n' ∧ ¬ c = '\r' := hm c (by simp)
    have hrec := ih (c :: acc) (fun d hd => hm d (by simp [hd]))
    simp only [List.cons_append, capGo, nlTerm_off c _ hc.1 hc.2]
    rw [if_neg (by simpa using hc.1)]
    simp only [List.append_eq]
    rw [hrec]
    simp

/-- The full lazy capture under the newline terminator takes the stretch before
the first newline. -/
theorem capLazy_nl (s b : Str) (hs : s ≠ [])
    (h : ∀ c ∈ s, ¬ c = '\n' ∧ ¬ c = '\r') :
    capLazy nlTerm (s ++ ('\n' :: b)) = some (s, b) := by
  cases s with
  | nil => exact absurd rfl hs
  | cons s0 s' =>
    have h0 : ¬ s0 = '\n' ∧ ¬ s0 = '\r' := h s0 (by simp)
    have hrec := capGo_nl b s' [s0] (fun d hd => h d (by simp [hd]))
    simp only [List.cons_append, capLazy]
    rw [if_neg (by simpa using h0.1)]
    rw [hrec]
    simp

/-- Backtracking from a full two-character class run stops at the first
successful capture. -/
theorem tryKs_hit2 (term : Str → Option Str) (R : Str) (r : Str × Str)
    (h : capLazy term R = some r) :
    tryKs term (':' :: ' ' :: R) 2 = some r := by
  have hd : tryKs term (':' :: ' ' :: R) 2 =
      match capLazy term R with
      | some r => some r
      | none => tryKs term (':' :: ' ' :: R) 1 := rfl
  rw [hd, h]

/-- The emphasized marker satisfies the case-insensitive guard. -/
theorem ciPre_emphMarker (X : Str) : ciPre subjEmphPat (emphMarker ++ X) = true := by
  simp only [subjEmphPat, emphMarker, List.cons_append, List.nil_append, ciPre]
  decide

/-- The plain marker satisfies the case-insensitive guard. -/
theorem ciPre_plainMarker (X : Str) : ciPre subjPlainPat (plainMarker ++ X) = true := by
  simp only [subjPlainPat, plainMarker, List.cons_append, List.nil_append, ciPre]
  decide

/-- The `[:\s]*` run after the marker is exactly the `: ` separator when the
capture does not begin with a class character. -/
theorem classRun_marker (X : Str) (c0 : Char) (s : Str) (h0 : colonWs c0 = false) :
    classRun colonWs (':' :: ' ' :: (c0 :: s ++ X)) = 2 := by
  have hA : colonWs ':' = true := by decide
  have hB : colonWs ' ' = true := by decide
  simp [classRun, hA, hB, h0]

/-- The emphasized-subject match at a well-formed marker captures exactly the
clean text before the closing `**`. -/
theorem matchSubjEmphAt_marker (s b : Str) (hs : s ≠ [])
    (hcw : (s.head?.all fun c => ! colonWs c) = true)
    (h : ∀ c ∈ s, ¬ c = '*' ∧ ¬ c = '\n') :
    matchSubjEmphAt (emphMarker ++ (s ++ ('*' :: '*' :: b))) = some (s, b) := by
  cases s with
  | nil => exact absurd rfl hs
  | cons s0 s' =>
    have h0 : colonWs s0 = false := by simpa using hcw
    have hdrop : (emphMarker ++ ((s0 :: s') ++ ('*' :: '*' :: b))).drop subjEmphPat.length
        = ':' :: ' ' :: ((s0 :: s') ++ ('*' :: '*' :: b)) := rfl
    have hcap := capLazy_star (s0 :: s') b (by simp) h
    simp only [matchSubjEmphAt, ciPre_emphMarker, if_true, hdrop, greedyClassThenCap,
      classRun_marker ('*' :: '*' :: b) s0 s' h0]
    exact tryKs_hit2 _ _ _ hcap

/-- The plain-subject match at a well-formed marker captures exactly the text
before the terminating newline. -/
theorem matchSubjPlainAt_marker (s b : Str) (hs : s ≠ [])
    (hcw : (s.head?.all fun c => ! colonWs c) = true)
    (h : ∀ c ∈ s, ¬ c = '\n' ∧ ¬ c = '\r') :
    matchSubjPlainAt (plainMarker ++ (s ++ ('\n' :: b))) = some (s, b) := by
  cases s with
  | nil => exact absurd rfl hs
  | cons s0 s' =>
    have h0 : colonWs s0 = false := by simpa using hcw
    have hdrop : (plainMarker ++ ((s0 :: s') ++ ('\n' :: b))).drop subjPlainPat.length
        = ':' :: ' ' :: ((s0 :: s') ++ ('\n' :: b)) := rfl
    have hcap := capLazy_nl (s0 :: s') b (by simp) h
    simp only [matchSubjPlainAt, ciPre_plainMarker, if_true, hdrop, greedyClassThenCap,
      classRun_marker ('\n' :: b) s0 s' h0]
    exact tryKs_hit2 _ _ _ hcap

/-- A successful emphasized search fixes the parsed subject. -/
theorem parse_subject_of_emph (doc cap rest : Str)
    (h : searchSubjEmph doc = some (cap, rest)) :
    (parse_newsletter doc).subject = pyStrip cap := by
  simp only [parse_newsletter, h]

/-- With the emphasized search failed, a successful plain search fixes the
parsed subject. -/
theorem parse_subject_of_plain (doc cap rest : Str)
    (he : searchSubjEmph doc = none) (h : searchSubjPlain doc = some (cap, rest)) :
    (parse_newsletter doc).subject = pyStrip cap := by
  simp only [parse_newsletter, he, h]

/-- With both searches failed, the parsed subject is the fallback string. -/
theorem parse_subject_fallback (doc : Str)
    (he : searchSubjEmph doc = none) (hp : searchSubjPlain doc = none) :
    (parse_newsletter doc).subject = fallbackSubject := by
  simp only [parse_newsletter, he, hp]

/-- Claim C3 as amended: a document holding a well-formed emphasized marker
`**SUBJECT LINE: s**` at the first case-insensitive occurrence of the
emphasized pattern - with a nonempty captured text `s` free of `*` and
newlines and not starting in the `[:\s]` class - parses to subject `s`
trimmed; a document with no emphasized occurrence at all but a well-formed
plain marker `SUBJECT LINE: s` terminated by a newline at the first
case-insensitive occurrence of the plain pattern parses to that capture
trimmed, wherever it occurs (not only line-leading); and a document with no
case-insensitive occurrence of `subject line` at all parses to the fixed
fallback subject. -/
theorem C3_subject_extraction :
    (∀ a s b : Str,
      ciIdx subjEmphPat (a ++ (emphMarker ++ (s ++ ('*' :: '*' :: b)))) = some a.length →
      s ≠ [] → (∀ c ∈ s, ¬ c = '*' ∧ ¬ c = '\n') →
      (s.head?.all fun c => ! colonWs c) = true →
      (parse_newsletter (a ++ (emphMarker ++ (s ++ ('*' :: '*' :: b))))).subject = pyStrip s) ∧
    (∀ a s b : Str,
      ciHas subjEmphPat (a ++ (plainMarker ++ (s ++ ('\n' :: b)))) = false →
      ciIdx subjPlainPat (a ++ (plainMarker ++ (s ++ ('\n' :: b)))) = some a.length →
      s ≠ [] → (∀ c ∈ s, ¬ c = '\n' ∧ ¬ c = '\r') →
      (s.head?.all fun c => ! colonWs c) = true →
      (parse_newsletter (a ++ (plainMarker ++ (s ++ ('\n' :: b))))).subject = pyStrip s) ∧
    (∀ doc : Str, ciHas subjPlainPat doc = false →
      (parse_newsletter doc).subject = fallbackSubject) := by
  refine ⟨?_, ?_, ?_⟩
  · intro a s b hfirst hs hchars hcw
    have hm := matchSubjEmphAt_marker s b hs hcw hchars
    have hskip : searchSubjEmph (a ++ (emphMarker ++ (s ++ ('*' :: '*' :: b)))) =
        searchSubjEmph (emphMarker ++ (s ++ ('*' :: '*' :: b))) := by
      apply searchSubjEmph_append
      intro i hi
      have h1 := ciIdxGo_some_before subjEmphPat _ 0 a.length hfirst i (by omega)
      rwa [drop_append_of_lt a _ i hi] at h1
    have hsome : searchSubjEmph (emphMarker ++ (s ++ ('*' :: '*' :: b))) = some (s, b) :=
      searchSubjEmph_at_head _ _ (by simp [emphMarker]) hm
    exact parse_subject_of_emph _ s b (hskip.trans hsome)
  · intro a s b hemph hfirst hs hchars hcw
    have hm := matchSubjPlainAt_marker s b hs hcw hchars
    have hnone : searchSubjEmph (a ++ (plainMarker ++ (s ++ ('\n' :: b)))) = none :=
      searchSubjEmph_none _ (ciIdxGo_none_drop subjEmphPat _ 0 (ciHas_false_none _ _ hemph))
    have hskip : searchSubjPlain (a ++ (plainMarker ++ (s ++ ('\n' :: b)))) =
        searchSubjPlain (plainMarker ++ (s ++ ('\n' :: b))) := by
      apply searchSubjPlain_append
      intro i hi
      have h1 := ciIdxGo_some_before subjPlainPat _ 0 a.length hfirst i (by omega)
      rwa [drop_append_of_lt a _ i hi] at h1
    have hsome : searchSubjPlain (plainMarker ++ (s ++ ('\n' :: b))) = some (s, b) :=
      searchSubjPlain_at_head _ _ (by simp [plainMarker]) hm
    exact parse_subject_of_plain _ s b hnone (hskip.trans hsome)
  · intro doc hplain
    have hp : ∀ j, ciPre subjPlainPat (doc.drop j) = false :=
      ciIdxGo_none_drop subjPlainPat doc 0 (ciHas_false_none _ _ hplain)
    exact parse_subject_fallback doc (searchSubjEmph_none doc (ciPre_emph_all_false doc hp))
      (searchSubjPlain_none doc hp)

/-- Concrete instantiations of all three parts of the amended claim C3. -/
theorem C3_subject_extraction_witness :
    ((parse_newsletter
        (['x', ' '] ++ (emphMarker ++ (['H', 'i'] ++ ('*' :: '*' :: [' ', 't']))))).subject
      = pyStrip ['H', 'i']) ∧
    ((parse_newsletter
        (['y', ' '] ++ (plainMarker ++ (['L', 'o'] ++ ('\n' :: []))))).subject
      = pyStrip ['L', 'o']) ∧
    ((parse_newsletter ['n', 'o', ' ', 'm', 'a', 'r', 'k']).subject = fallbackSubject) := by
  refine ⟨?_, ?_, ?_⟩
  · exact C3_subject_extraction.1 ['x', ' '] ['H', 'i'] [' ', 't'] (by decide) (by decide)
      (by decide) (by decide)
  · exact C3_subject_extraction.2.1 ['y', ' '] ['L', 'o'] [] (by decide) (by decide) (by decide)
      (by decide) (by decide)
  · exact C3_subject_extraction.2.2 ['n', 'o', ' ', 'm', 'a', 'r', 'k'] (by decide)

end Uncurve
